import Mathlib

/-!
Shallow embedding of the `dlc2labelstudio` conversion library and proofs
about its behaviour.

The Python modules embedded here are `ls_annot_parser.py`, `dlc_data.py`,
`data_export.py`, `io.py` and `label_config.py`.  Python dicts with a fixed
shape become structures, heterogeneous result dicts become a single record
type with per-type default fields, fallible code returns `Except PyErr`,
floats become `ℚ`, and the file system becomes an association list from
path strings to contents.  Python standard-library helpers used by the code
(`fnmatch.fnmatch`, `str.replace`, `os.path.split`, `os.path.splitext`,
decimal formatting) are modelled by explicit fuel-based recursions so that
everything evaluates by `decide`.
-/

set_option autoImplicit false

/-- Python exceptions that the embedded code can raise. -/
inductive PyErr where
  | keyError (k : String)
  | indexError
  | valueError (msg : String)
deriving DecidableEq

/-- One element of a task's `result` list.  Label-studio result dicts are
heterogeneous; the `rtype` field (`'type'` in the JSON) says which of the
remaining fields are meaningful, the others keep their defaults. -/
structure RItem where
  rtype : String := ""
  id : String := ""
  rectlabels : List String := []
  kptlabels : List String := []
  vx : ℚ := 0
  vy : ℚ := 0
  vwidth : ℚ := 0
  vheight : ℚ := 0
  original_width : ℚ := 0
  original_height : ℚ := 0
  from_id : String := ""
  to_id : String := ""
  from_name : String := ""
  to_name : String := ""
  direction : String := ""
deriving DecidableEq

/-- One element of a task's `annotations` (or legacy `completions`) list. -/
structure LSAnn where
  result : List RItem
deriving DecidableEq

/-- A label-studio task dict, with the optional keys the parser looks at. -/
structure Entry where
  id : String
  annotations : Option (List LSAnn) := none
  completions : Option (List LSAnn) := none
  meta_original_file : Option String := none
  task_path : Option String := none
  data_image : Option String := none
  data_depth_image : Option String := none
deriving DecidableEq

/-- A normalized intermediate record, as produced by
`get_annotation_from_entry` (`task_id`, `file_name`, `individual`,
`bodypart`, `x`, `y`). -/
structure IRec where
  task_id : String
  file_name : Option String
  individual : Option String
  bodypart : String
  x : ℚ
  y : ℚ
deriving DecidableEq

/-- Insertion-ordered dict update, modelling Python dict assignment:
an existing key keeps its position and gets the new value, a new key is
appended at the end. -/
def dictInsert {κ α : Type} [BEq κ] (m : List (κ × α)) (k : κ) (v : α) :
    List (κ × α) :=
  if m.any (fun p => p.1 == k) then
    m.map (fun p => if p.1 == k then (p.1, v) else p)
  else
    m ++ [(k, v)]

/-- Python dict lookup (`m[k]`), `none` when the key is missing. -/
def dictGet? {κ α : Type} [BEq κ] (m : List (κ × α)) (k : κ) : Option α :=
  (m.find? (fun p => p.1 == k)).map (fun p => p.2)

/-- `filter_and_index`: keep the result items of one `type` and index them
by their `id` (a Python dict comprehension, so insertion ordered). -/
def filter_and_index (anns : List RItem) (ty : String) : List (String × RItem) :=
  (anns.filter (fun d => d.rtype == ty)).foldl
    (fun m item => dictInsert m item.id item) []

/-- `relmap.setdefault(k, []).append(v)` as used by `build_relation_map`. -/
def relmapAdd (m : List (String × List String)) (k v : String) :
    List (String × List String) :=
  if m.any (fun p => p.1 == k) then
    m.map (fun p => if p.1 == k then (p.1, p.2 ++ [v]) else p)
  else
    m ++ [(k, [v])]

/-- `build_relation_map`: index every `relation` result under both of its
endpoints (the adjacency map is bidirectional). -/
def build_relation_map (anns : List RItem) : List (String × List String) :=
  (anns.filter (fun d => d.rtype == "relation")).foldl
    (fun m rel => relmapAdd (relmapAdd m rel.from_id rel.to_id) rel.to_id rel.from_id)
    []

/-- `get_image_path`: first present among `meta.original_file`, `task_path`,
`data.image`, `data.depth_image`; Python falls off the end with `None`. -/
def get_image_path (e : Entry) : Option String :=
  match e.meta_original_file with
  | some p => some p
  | none =>
    match e.task_path with
    | some p => some p
    | none =>
      match e.data_image with
      | some p => some p
      | none =>
        match e.data_depth_image with
        | some p => some p
        | none => none

/-- Percent → pixel, as computed by the parser:
`(value * original_dimension) / 100`. -/
def pct_to_pixel (pct dim : ℚ) : ℚ :=
  (pct * dim) / 100

/-- Pixel → percent, as computed by `load_dlc_annotations_for_image`:
`pos / dimension * 100`. -/
def pixel_to_pct (px dim : ℚ) : ℚ :=
  px / dim * 100

/-- Build one output record from a keypoint result (`out.append({...})` in
`get_annotation_from_entry`); fails with `IndexError` when the keypoint has
no label (`value['keypointlabels'][0]`). -/
def kptRecord (e : Entry) (indLbl : Option String) (kpt : RItem) :
    Except PyErr IRec :=
  match kpt.kptlabels.head? with
  | none => .error .indexError
  | some bp =>
    .ok { task_id := e.id
          file_name := get_image_path e
          individual := indLbl
          bodypart := bp
          x := pct_to_pixel kpt.vx kpt.original_width
          y := pct_to_pixel kpt.vy kpt.original_height }

/-- Inner loop of the multi-animal branch: `for rel in relations[indv_id]`,
emitting one record per related id. `keypoints[rel]` raises `KeyError` when
the id is not a keypoint, and `indv['value']['rectanglelabels'][0]` raises
`IndexError` when the rectangle has no label. -/
def relLoop (e : Entry) (keypoints : List (String × RItem)) (indv : RItem) :
    List String → List IRec → Except PyErr (List IRec)
  | [], out => .ok out
  | rid :: rest, out =>
    match dictGet? keypoints rid with
    | none => .error (.keyError rid)
    | some kpt =>
      match indv.rectlabels.head? with
      | none => .error .indexError
      | some lbl =>
        match kptRecord e (some lbl) kpt with
        | .error er => .error er
        | .ok rec => relLoop e keypoints indv rest (out ++ [rec])

/-- Outer loop of the multi-animal branch: `for indv_id, indv in
individuals.items()`; `relations[indv_id]` raises `KeyError` when a
rectangle has no relation at all. -/
def indvLoop (e : Entry) (keypoints : List (String × RItem))
    (relations : List (String × List String)) :
    List (String × RItem) → List IRec → Except PyErr (List IRec)
  | [], out => .ok out
  | (iid, indv) :: rest, out =>
    match dictGet? relations iid with
    | none => .error (.keyError iid)
    | some rels =>
      match relLoop e keypoints indv rels out with
      | .error er => .error er
      | .ok out' => indvLoop e keypoints relations rest out'

/-- Single-animal branch: `for _, kpt in keypoints.items()`, every record
gets `individual = None`. -/
def kptLoop (e : Entry) :
    List (String × RItem) → List IRec → Except PyErr (List IRec)
  | [], out => .ok out
  | (_, kpt) :: rest, out =>
    match kptRecord e none kpt with
    | .error er => .error er
    | .ok rec => kptLoop e rest (out ++ [rec])

/-- `entry[key]` for the two annotation list keys used by the parser. -/
def entryGet (e : Entry) (key : String) : Option (List LSAnn) :=
  if key == "annotations" then e.annotations
  else if key == "completions" then e.completions
  else none

/-- `get_annotation_from_entry`: parse the first annotation's result list.
Rectangles, keypoints and relations are indexed; with more than one
rectangle the multi-animal branch walks relation edges, otherwise every
keypoint is emitted with `individual = None`. -/
def get_annotation_from_entry (e : Entry) (key : String) :
    Except PyErr (List IRec) :=
  match entryGet e key with
  | none => .error (.keyError key)
  | some anns =>
    match anns.head? with
    | none => .error .indexError
    | some first =>
      let to_parse := first.result
      let individuals := filter_and_index to_parse "rectanglelabels"
      let keypoints := filter_and_index to_parse "keypointlabels"
      let relations := build_relation_map to_parse
      if individuals.length > 1 then
        indvLoop e keypoints relations individuals []
      else
        kptLoop e keypoints []

/-- `read_annotations`: per task, pick the `annotations` key, else the
legacy `completions` key, else raise
`ValueError('Cannot find annotation data for entry!')`; collect the
per-task record lists. -/
def read_annotations (tasks : List Entry) :
    Except PyErr (List (List IRec)) :=
  tasks.foldlM
    (fun acc e =>
      match (if e.annotations.isSome then .ok "annotations"
             else if e.completions.isSome then .ok "completions"
             else .error (.valueError "Cannot find annotation data for entry!") :
              Except PyErr String) with
      | .error er => .error er
      | .ok key =>
        match get_annotation_from_entry e key with
        | .error er => .error er
        | .ok d => .ok (acc ++ [d]))
    []

/-- Fuel-based glob matcher over characters, modelling Python
`fnmatch.fnmatch` for the `*`, `?` and literal pattern forms (the only
forms this repository uses).  The fuel strictly exceeds the combined
length of pattern and name, which the lemmas below show is enough. -/
def globF : ℕ → List Char → List Char → Bool
  | 0, _, _ => false
  | _ + 1, [], [] => true
  | _ + 1, [], _ :: _ => false
  | f + 1, '*' :: ps, [] => globF f ps []
  | f + 1, '*' :: ps, c :: cs => globF f ps (c :: cs) || globF f ('*' :: ps) cs
  | f + 1, '?' :: ps, _ :: cs => globF f ps cs
  | f + 1, p :: ps, c :: cs => (p == c) && globF f ps cs
  | _ + 1, _ :: _, [] => false

/-- `fnmatch.fnmatch(name, pattern)` (POSIX case behaviour). -/
def fnmatchB (name pattern : String) : Bool :=
  globF (pattern.data.length + name.data.length + 1) pattern.data name.data

/-- Inner loop of `filter_dataset`: scan the filters in order, return the
item at the first match (the Python loop appends and `break`s). -/
def filterFirstMatch (filters : List String) (item : String) : Option String :=
  match filters with
  | [] => none
  | f :: fs => if fnmatchB item f then some item else filterFirstMatch fs item

/-- `filter_dataset`: keep the filenames matching at least one filter. -/
def filter_dataset (dataset filters : List String) : List String :=
  dataset.foldl
    (fun out item =>
      match filterFirstMatch filters item with
      | some it => out ++ [it]
      | none => out)
    []

/-- A DLC project configuration (`config.yaml` contents), with the keys
the embedded code reads.  `multianimalproject` is optional, matching the
`'multianimalproject' in dlc_config` check. -/
structure DlcConfig where
  scorer : String
  multianimalproject : Option Bool := none
  individuals : List String := []
  multianimalbodyparts : List String := []
  uniquebodyparts : List String := []
  bodyparts : List String := []
  project_path : String := ""
deriving DecidableEq

/-- `is_multianimal`. -/
def is_multianimal (c : DlcConfig) : Bool :=
  match c.multianimalproject with
  | some b => b
  | none => false

/-- Python `int()` on a rational: truncation toward zero. -/
def pyInt (q : ℚ) : ℤ :=
  if 0 ≤ q then ⌊q⌋ else ⌈q⌉

/-- `float_rgb_to_int_rgb`: `int(c * 255)` per channel. -/
def float_rgb_to_int_rgb (c : ℚ × ℚ × ℚ) : ℤ × ℤ × ℤ :=
  (pyInt (c.1 * 255), pyInt (c.2.1 * 255), pyInt (c.2.2 * 255))

/-- `clamp_rgb`: `int(max(0, min(c, 255)))` per channel. -/
def clamp_rgb (c : ℤ × ℤ × ℤ) : ℤ × ℤ × ℤ :=
  (max 0 (min c.1 255), max 0 (min c.2.1 255), max 0 (min c.2.2 255))

/-- One lowercase hexadecimal digit. -/
def hexDigit (n : ℕ) : Char :=
  "0123456789abcdef".data.getD n '0'

/-- Two-digit lowercase hex rendering of a byte (`f'{v:02x}'` for values
in 0..255). -/
def hex2 (n : ℕ) : String :=
  String.mk [hexDigit (n / 16), hexDigit (n % 16)]

/-- `rgb_to_hex`: clamp, then format `#rrggbb`. -/
def rgb_to_hex (c : ℤ × ℤ × ℤ) : String :=
  match clamp_rgb c with
  | (red, green, blue) =>
    "#" ++ hex2 red.toNat ++ hex2 green.toNat ++ hex2 blue.toNat

/-- Split a list at a separator character, Python `str.split(sep)`:
`""` splits to `[""]`, separators at the ends produce empty pieces. -/
def splitOnChar (sep : Char) : List Char → List (List Char)
  | [] => [[]]
  | c :: cs =>
    match splitOnChar sep cs with
    | [] => if c == sep then [[], []] else [[c]]
    | r :: rs => if c == sep then [] :: r :: rs else (c :: r) :: rs

/-- `os.path.split`: directory part and final component of a path. -/
def osSplit (p : String) : String × String :=
  let parts := (splitOnChar '/' p.data).map String.mk
  (String.intercalate "/" parts.dropLast, parts.getLastD "")

/-- `os.path.dirname`. -/
def osDirname (p : String) : String :=
  (osSplit p).1

/-- `os.path.splitext`: split off the extension at the rightmost dot of
the final path component, provided some non-dot character of that
component precedes it (so `.bashrc` has no extension). -/
def splitext (p : String) : String × String :=
  let parts := splitOnChar '/' p.data
  let base := parts.getLastD []
  let dirParts := parts.dropLast
  let dotIdxs := (List.range base.length).filter
    (fun i => base.getD i ' ' == '.' && (base.take i).any (fun ch => ch != '.'))
  match dotIdxs.getLast? with
  | some d =>
    (String.intercalate "/" ((dirParts ++ [base.take d]).map String.mk),
     String.mk (base.drop d))
  | none => (p, "")

/-- The file system: an association list from path to file contents. -/
abbrev FS (β : Type) : Type :=
  List (String × β)

/-- `os.path.exists`. -/
def fsExists {β : Type} (fs : FS β) (p : String) : Bool :=
  fs.any (fun e => e.1 == p)

/-- Read a file's bytes. -/
def fsGet? {β : Type} (fs : FS β) (p : String) : Option β :=
  (fs.find? (fun e => e.1 == p)).map (fun e => e.2)

/-- Write a file (overwriting an existing one). -/
def fsSet {β : Type} (fs : FS β) (p : String) (v : β) : FS β :=
  if fs.any (fun e => e.1 == p) then
    fs.map (fun e => if e.1 == p then (e.1, v) else e)
  else
    fs ++ [(p, v)]

/-- The candidate paths probed by `backup_existing_file`: the path itself,
then `<base>.backup-<n><ext>` (`f'{base}.backup-{counter}{ext}'`). -/
def backupCandidate (origional_path base ext : String) (n : ℕ) : String :=
  if n = 0 then origional_path else base ++ ".backup-" ++ Nat.repr n ++ ext

/-- The `while os.path.exists(new_path)` search loop, with explicit fuel;
returns the first candidate index that does not exist (or, if the fuel is
exhausted, the next unprobed index — shown unreachable below). -/
def backupLoop {β : Type} (fs : FS β) (cand : ℕ → String) : ℕ → ℕ → ℕ
  | 0, n => n
  | fuel + 1, n => if fsExists fs (cand n) then backupLoop fs cand fuel (n + 1) else n

/-- `backup_existing_file`: find the first free candidate path and copy
(`shutil.copy2`) the original there; copying a missing original raises. -/
def backup_existing_file {β : Type} (fs : FS β) (origional_path : String) :
    Except Unit (String × FS β) :=
  let se := splitext origional_path
  let cand := backupCandidate origional_path se.1 se.2
  let n := backupLoop fs cand (fs.length + 2) 0
  match fsGet? fs origional_path with
  | some content => .ok (cand n, fsSet fs (cand n) content)
  | none => .error ()

/-- Fuel-based model of Python `str.replace(old, new)` (all non-overlapping
occurrences, left to right); the fuel is the string length, enough because
each step consumes at least one character. -/
def replF (old new : List Char) : ℕ → List Char → List Char
  | 0, l => l
  | _ + 1, [] => []
  | f + 1, c :: cs =>
    if old.isPrefixOf (c :: cs) then new ++ replF old new f ((c :: cs).drop old.length)
    else c :: replF old new f cs

/-- Python `s.replace(old, new)` for non-empty `old`. -/
def pyReplace (s old new : String) : String :=
  if old.data.isEmpty then s
  else String.mk (replF old.data new.data s.data.length s.data)

/-- `make_index_from_dlc_config`: the schema-defined column keys, in
declaration order, with `coord` varying fastest. -/
def make_index_from_dlc_config (cfg : DlcConfig) : List (List String) :=
  if is_multianimal cfg then
    (cfg.individuals.flatMap (fun ind =>
      cfg.multianimalbodyparts.flatMap (fun mabp =>
        [[cfg.scorer, ind, mabp, "x"], [cfg.scorer, ind, mabp, "y"]])))
    ++ cfg.uniquebodyparts.flatMap (fun unbp =>
        [[cfg.scorer, "single", unbp, "x"], [cfg.scorer, "single", unbp, "y"]])
  else
    cfg.bodyparts.flatMap (fun bp => [[cfg.scorer, bp, "x"], [cfg.scorer, bp, "y"]])

/-- The mutable `dlc_data` dict: column key → one optional value per row. -/
abbrev Tbl : Type :=
  List (List String × List (Option ℚ))

/-- The column key a record targets (without the trailing coord). -/
def computeKey (is_ma : Bool) (cfg : DlcConfig) (annot : IRec) : List String :=
  if is_ma then
    match annot.individual with
    | none => [cfg.scorer, "single", annot.bodypart]
    | some ind => [cfg.scorer, ind, annot.bodypart]
  else
    [cfg.scorer, annot.bodypart]

/-- `dlc_data[key][-1] = v`: `none` models the `KeyError` when the column
key does not exist.  (The value list is never empty here: a `None` for the
current row has just been appended to every column.) -/
def setLast (tbl : Tbl) (k : List String) (v : ℚ) : Option Tbl :=
  if tbl.any (fun e => e.1 == k) then
    some (tbl.map (fun e => if e.1 == k then (e.1, e.2.dropLast ++ [some v]) else e))
  else
    none

/-- The rationale chosen in the `except KeyError` handler of
`intermediate_annotations_to_dlc`. -/
def rationaleFor (cfg : DlcConfig) (annot : IRec) : String :=
  if cfg.multianimalbodyparts.contains annot.bodypart && annot.individual == none then
    "bodypart is a multianimal bodypart, but no relationship to an individual was found!"
  else if cfg.uniquebodyparts.contains annot.bodypart && annot.individual != none then
    "bodypart is a unique bodypart and should not have a relationship with an individual, but one was found"
  else
    "Unknown"

/-- Process one record of a group: write its `x` and `y` cells, or count a
schema violation and log its rationale (the printed diagnostic). -/
def processAnnot (cfg : DlcConfig) (is_ma : Bool) (st : Tbl × ℕ × List String)
    (annot : IRec) : Tbl × ℕ × List String :=
  let key := computeKey is_ma cfg annot
  match setLast st.1 (key ++ ["x"]) annot.x with
  | none => (st.1, st.2.1 + 1, st.2.2 ++ [rationaleFor cfg annot])
  | some t1 =>
    match setLast t1 (key ++ ["y"]) annot.y with
    | none => (t1, st.2.1 + 1, st.2.2 ++ [rationaleFor cfg annot])
    | some t2 => (t2, st.2.1, st.2.2)

/-- The row key appended for a group:
`tuple(group.replace(r'\\', '/').split('/'))`. -/
def rowKeyOf (gkey : String) : List String :=
  (splitOnChar '/' (pyReplace gkey "\\\\" "/").data).map String.mk

/-- Process one `groupby` group: append the row key, extend every column
with `None`, then process the group's records. -/
def processGroup (cfg : DlcConfig) (is_ma : Bool)
    (st : List (List String) × Tbl × ℕ × List String) (grp : List IRec) :
    List (List String) × Tbl × ℕ × List String :=
  let gkey := ((grp.head?.map (fun a => a.file_name)).getD none).getD ""
  let rows' := st.1 ++ [rowKeyOf gkey]
  let tbl0 := st.2.1.map (fun e => (e.1, e.2 ++ [(none : Option ℚ)]))
  let res := grp.foldl (processAnnot cfg is_ma) (tbl0, st.2.2.1, st.2.2.2)
  (rows', res.1, res.2.1, res.2.2)

/-- Comparison key of `sorted(intermediate_annotations, key=a['file_name'])`.
Python would raise comparing `None` file names; the model totalises the
order by putting `none` first. -/
def recLe (a b : IRec) : Bool :=
  match a.file_name, b.file_name with
  | none, _ => true
  | some _, none => false
  | some s, some t => decide (s ≤ t)

/-- Fuel-based run of `itertools.groupby`: split a list into maximal runs
of adjacent elements related by `p` to the run's head. -/
def chunkByF {α : Type} (p : α → α → Bool) : ℕ → List α → List (List α)
  | _, [] => []
  | 0, l => [l]
  | f + 1, a :: as => (a :: as.takeWhile (p a)) :: chunkByF p f (as.dropWhile (p a))

/-- `itertools.groupby` over a sorted list (grouping by `file_name`). -/
def chunkBy {α : Type} (p : α → α → Bool) (l : List α) : List (List α) :=
  chunkByF p l.length l

/-- The assembled "DataFrame": row keys, column keys, and the cell dict. -/
structure DataFrameM where
  rows : List (List String)
  cols : List (List String)
  data : Tbl
deriving DecidableEq

/-- Result of `intermediate_annotations_to_dlc`: the data frame, the
violation count, and the rationale of each printed diagnostic. -/
structure AsmOut where
  df : DataFrameM
  errors : ℕ
  rationales : List String
deriving DecidableEq

/-- `intermediate_annotations_to_dlc`: sort records by file name, group
them, and fill the schema-defined columns, counting schema violations. -/
def intermediate_annotations_to_dlc (annots : List IRec) (cfg : DlcConfig) :
    AsmOut :=
  let is_ma := is_multianimal cfg
  let col_idx := make_index_from_dlc_config cfg
  let dlc0 : Tbl := col_idx.foldl (fun m k => dictInsert m k ([] : List (Option ℚ))) []
  let sorted_annot := List.insertionSort (fun a b => recLe a b = true) annots
  let groups := chunkBy (fun a b => a.file_name == b.file_name) sorted_annot
  let res := groups.foldl (processGroup cfg is_ma) ([], dlc0, 0, [])
  { df := { rows := res.1, cols := col_idx, data := res.2.1 }
    errors := res.2.2.1
    rationales := res.2.2.2 }

/-- `split_annotations_by_directory`: group records by the last directory
component of their file name (`os.path.split` applied twice). -/
def split_annotations_by_directory (annots : List IRec) :
    List (String × List IRec) :=
  annots.foldl
    (fun grouped annot =>
      let path := (osSplit (annot.file_name.getD "")).1
      let group := (osSplit path).2
      match dictGet? grouped group with
      | some l => dictInsert grouped group (l ++ [annot])
      | none => dictInsert grouped group [annot])
    []

/-- Contents written by `save_dlc_annots`: a csv or an hdf5 rendering of a
data frame. -/
inductive SavedDoc where
  | csv (df : DataFrameM)
  | h5 (df : DataFrameM)
deriving DecidableEq

/-- The destination stem `<project_path>/labeled-data[/<group>]/CollectedData_<scorer>`. -/
def dlcDest (cfg : DlcConfig) (group : Option String) : String :=
  let base := cfg.project_path ++ "/labeled-data"
  let base := match group with
    | some g => base ++ "/" ++ g
    | none => base
  base ++ "/CollectedData_" ++ cfg.scorer

/-- Write one of the two representations, backing up an existing file
first (`backup_existing_file`). -/
def saveOneDoc (fs : FS SavedDoc) (dest : String) (doc : SavedDoc) :
    Except Unit (FS SavedDoc) :=
  if fsExists fs dest then
    match backup_existing_file fs dest with
    | .error er => .error er
    | .ok pr => .ok (fsSet pr.2 dest doc)
  else
    .ok (fsSet fs dest doc)

/-- `save_dlc_annots`: write the csv form, then the hdf5 form, each with
backup-on-overwrite. -/
def save_dlc_annots (fs : FS SavedDoc) (df : DataFrameM) (cfg : DlcConfig)
    (group : Option String) : Except Unit (FS SavedDoc) :=
  let dest := dlcDest cfg group
  match saveOneDoc fs (dest ++ ".csv") (.csv df) with
  | .error er => .error er
  | .ok fs1 => saveOneDoc fs1 (dest ++ ".h5") (.h5 df)

/-- Return value of `convert_ls_annot_to_dlc`: a dict of per-group frames
when `split`, a single frame otherwise, `none` ≙ Python `None`. -/
inductive ConvOut where
  | grouped (gs : List (String × DataFrameM))
  | single (df : DataFrameM)
deriving DecidableEq

/-- `convert_ls_annot_to_dlc`, from the intermediate records onward.
(In the repository the records come from `read_annotations`; the function
body indexes them as flat record dicts, which is the shape taken here.)
Returns the Python return value together with the resulting file system;
when any schema violations were counted, nothing is saved and `None` is
returned. -/
def convert_ls_annot_to_dlc (data : List IRec) (cfg : DlcConfig)
    (split save : Bool) (fs : FS SavedDoc) :
    Except Unit (Option ConvOut × FS SavedDoc) :=
  if split then
    let grouped := split_annotations_by_directory data
    let results := grouped.map (fun g => (g.1, intermediate_annotations_to_dlc g.2 cfg))
    let total_errors := (results.map (fun r => r.2.errors)).sum
    if total_errors > 0 then
      .ok (none, fs)
    else if save then
      match results.foldlM (fun fsa r => save_dlc_annots fsa r.2.df cfg (some r.1)) fs with
      | .error er => .error er
      | .ok fs' => .ok (some (.grouped (results.map (fun r => (r.1, r.2.df)))), fs')
    else
      .ok (some (.grouped (results.map (fun r => (r.1, r.2.df)))), fs)
  else
    let res := intermediate_annotations_to_dlc data cfg
    if res.errors > 0 then
      .ok (none, fs)
    else if save then
      match save_dlc_annots fs res.df cfg none with
      | .error er => .error er
      | .ok fs' => .ok (some (.single res.df), fs')
    else
      .ok (some (.single res.df), fs)

/-- First-occurrence deduplication, modelling the (order-unspecified)
Python `list(set(...))` iteration over individuals. -/
def dedupFirst (l : List String) : List String :=
  l.foldl (fun acc x => if acc.contains x then acc else acc ++ [x]) []

/-- The loaded `CollectedData_<scorer>.h5` table as the loader sees it:
the second and third column index levels, and the `.loc[row, col]` cell
lookup — outer `none` ≙ `KeyError`, inner `none` ≙ `NaN`. -/
structure DlcTable where
  level1 : List String
  level2 : List String
  cells : String → List String → Option (Option ℚ)

/-- The world `load_dlc_annotations_for_image` touches: existing paths,
`pd.read_hdf` (`none` ≙ raise), and `read_image` dimensions
(height, width; `none` ≙ raise). -/
structure LoadEnv where
  files : List String
  tables : String → Option DlcTable
  images : String → Option (ℕ × ℕ)

/-- The companion table path
`os.path.join(os.path.dirname(image_path), f'CollectedData_{scorer}.h5')`. -/
def annotPathOf (cfg : DlcConfig) (image_path : String) : String :=
  osDirname image_path ++ "/CollectedData_" ++ cfg.scorer ++ ".h5"

/-- The keypoint/relation loop of `load_dlc_annotations_for_image`:
look up the `x` and `y` cells for each index tuple (a `KeyError` aborts),
skip `NaN` positions, emit a keypoint result (and, in the multi-animal
case, a relation to the individual's rectangle). -/
def kptBuildLoop (cfg : DlcConfig) (annots : DlcTable) (img_rel_path : String)
    (is_ma : Bool) (width height : ℕ) (indv_map : List (String × String)) :
    List (List String) → List RItem → Except Unit (List RItem)
  | [], out => .ok out
  | idx :: rest, out =>
    match annots.cells img_rel_path ([cfg.scorer] ++ idx ++ ["x"]) with
    | none => .error ()
    | some xcell =>
      match annots.cells img_rel_path ([cfg.scorer] ++ idx ++ ["y"]) with
      | none => .error ()
      | some ycell =>
        match xcell, ycell with
        | some x_pos, some y_pos =>
          let kitem : RItem :=
            { rtype := "keypointlabels"
              id := "my_kpt_id"
              kptlabels := [idx.getLastD ""]
              vx := pixel_to_pct x_pos (width : ℚ)
              vy := pixel_to_pct y_pos (height : ℚ)
              vwidth := 2666 / 10000
              original_width := (width : ℚ)
              original_height := (height : ℚ)
              from_name := "keypoint-label"
              to_name := "image" }
          if is_ma then
            match dictGet? indv_map (idx.headD "") with
            | none => .error ()
            | some toid =>
              kptBuildLoop cfg annots img_rel_path is_ma width height indv_map rest
                (out ++ [kitem,
                  { rtype := "relation", from_id := "my_kpt_id", to_id := toid,
                    direction := "right" }])
          else
            kptBuildLoop cfg annots img_rel_path is_ma width height indv_map rest
              (out ++ [kitem])
        | _, _ =>
          kptBuildLoop cfg annots img_rel_path is_ma width height indv_map rest out

/-- The rectangle emitted for one individual in the multi-animal case. -/
def indvItem (width height : ℕ) (indv : String) : RItem :=
  { rtype := "rectanglelabels"
    id := "my_id"
    rectlabels := [indv]
    vx := 0
    vy := 0
    vwidth := (width : ℚ)
    vheight := (height : ℚ)
    original_width := (width : ℚ)
    original_height := (height : ℚ)
    from_name := "individuals"
    to_name := "image" }

/-- The `try` body of `load_dlc_annotations_for_image`: `.ok none` is the
early `return None` for a missing companion table, `.error` is any raised
exception. -/
def loadBody (cfg : DlcConfig) (image_path : String) (env : LoadEnv) :
    Except Unit (Option LSAnn) :=
  let is_ma := is_multianimal cfg
  let img_rel_path := pyReplace image_path (cfg.project_path ++ "/") ""
  let annot_path := annotPathOf cfg image_path
  if !env.files.contains annot_path then
    .ok none
  else
    match env.tables annot_path with
    | none => .error ()
    | some annots =>
      let to_iter : List (List String) :=
        if is_ma then (annots.level1.zip annots.level2).map (fun p => [p.1, p.2])
        else [annots.level1]
      match env.images image_path with
      | none => .error ()
      | some hw =>
        let height := hw.1
        let width := hw.2
        let dedup1 := dedupFirst annots.level1
        let indvOut : List RItem :=
          if is_ma then dedup1.map (indvItem width height) else []
        let indv_map : List (String × String) :=
          if is_ma then dedup1.map (fun i => (i, "my_id")) else []
        match kptBuildLoop cfg annots img_rel_path is_ma width height indv_map
            to_iter indvOut with
        | .error er => .error er
        | .ok out => .ok (some { result := out })

/-- `load_dlc_annotations_for_image`: the whole body runs under a bare
`try`/`except` whose handler falls off the end of the function, so every
raised exception turns into `None`. -/
def load_dlc_annotations_for_image (cfg : DlcConfig) (image_path : String)
    (env : LoadEnv) : Option LSAnn :=
  match loadBody cfg image_path env with
  | .ok v => v
  | .error _ => none

/-- Value of a lowercase hex digit (specification-side decoder). -/
def hexVal (c : Char) : ℕ :=
  "0123456789abcdef".data.findIdx (fun d => d == c)

/-- Decode a big-endian string of lowercase hex digits
(specification-side decoder, used to state that `hex2` really encodes). -/
def hexDecode (l : List Char) : ℕ :=
  l.foldl (fun a c => a * 16 + hexVal c) 0

/-- A rectangle result with one label (dimensions 100×50). -/
def rectItem (rid lbl : String) : RItem :=
  { rtype := "rectanglelabels", id := rid, rectlabels := [lbl],
    original_width := 100, original_height := 50 }

/-- A keypoint result with one label (dimensions 100×50). -/
def kptItem (kid lbl : String) (px py : ℚ) : RItem :=
  { rtype := "keypointlabels", id := kid, kptlabels := [lbl],
    vx := px, vy := py, original_width := 100, original_height := 50 }

/-- A relation edge result. -/
def relItem (f t : String) : RItem :=
  { rtype := "relation", from_id := f, to_id := t }

/-- Result bag with exactly one rectangle `r1`, keypoints `k1`,`k2` related
to `r1`, and an unrelated keypoint `k3`. -/
def oneRectResult : List RItem :=
  [rectItem "r1" "animal_A",
   kptItem "k1" "nose1" 10 20, kptItem "k2" "nose2" 30 40,
   kptItem "k3" "nose3" 50 60,
   relItem "k1" "r1", relItem "k2" "r1"]

/-- A task holding `oneRectResult`. -/
def oneRectTask : Entry :=
  { id := "task-1", annotations := some [{ result := oneRectResult }],
    data_image := some "img1.png" }

/-- What the parser emits for `oneRectTask`. -/
def oneRectOut : List IRec :=
  [{ task_id := "task-1", file_name := some "img1.png", individual := none,
     bodypart := "nose1", x := pct_to_pixel 10 100, y := pct_to_pixel 20 50 },
   { task_id := "task-1", file_name := some "img1.png", individual := none,
     bodypart := "nose2", x := pct_to_pixel 30 100, y := pct_to_pixel 40 50 },
   { task_id := "task-1", file_name := some "img1.png", individual := none,
     bodypart := "nose3", x := pct_to_pixel 50 100, y := pct_to_pixel 60 50 }]

/-- Result bag with rectangles `r1`,`r2`, keypoint `k1` related to `r1`,
keypoint `k2` related to `r2`, and an unrelated keypoint `k3`. -/
def twoRectResult : List RItem :=
  [rectItem "r1" "animal_A", rectItem "r2" "animal_B",
   kptItem "k1" "nose1" 10 20, kptItem "k2" "nose2" 30 40,
   kptItem "k3" "nose3" 50 60,
   relItem "k1" "r1", relItem "k2" "r2"]

/-- A task holding `twoRectResult`. -/
def twoRectTask : Entry :=
  { id := "task-2", annotations := some [{ result := twoRectResult }],
    data_image := some "img2.png" }

/-- What the parser emits for `twoRectTask`. -/
def twoRectOut : List IRec :=
  [{ task_id := "task-2", file_name := some "img2.png",
     individual := some "animal_A",
     bodypart := "nose1", x := pct_to_pixel 10 100, y := pct_to_pixel 20 50 },
   { task_id := "task-2", file_name := some "img2.png",
     individual := some "animal_B",
     bodypart := "nose2", x := pct_to_pixel 30 100, y := pct_to_pixel 40 50 }]

/-- A task with neither an `annotations` nor a `completions` key. -/
def noAnnTask (i : String) : Entry :=
  { id := i }

/-- A multi-animal project configuration with one individual and one
shared bodypart. -/
def maCfg : DlcConfig :=
  { scorer := "sc", multianimalproject := some true, individuals := ["A"],
    multianimalbodyparts := ["nose"], uniquebodyparts := [], bodyparts := [],
    project_path := "proj" }

/-- A record whose column key cannot exist under `maCfg`: a multianimal
bodypart with `individual = None`. -/
def orphanRec : IRec :=
  { task_id := "t1", file_name := some "labeled-data/v1/img.png",
    individual := none, bodypart := "nose", x := 0, y := 0 }

/-- A file system where the destination and its first two backups exist. -/
def demoFS : FS ℕ :=
  [("d/f.csv", 7), ("d/f.backup-1.csv", 1), ("d/f.backup-2.csv", 2)]

/-- A single-animal configuration for the loader. -/
def loadCfg : DlcConfig :=
  { scorer := "sc", project_path := "proj" }

/-- An image path inside `loadCfg`'s project. -/
def loadImgPath : String :=
  "proj/labeled-data/v1/img.png"

/-- A loaded table whose row lookups all raise `KeyError`. -/
def rowAbsentTable : DlcTable :=
  { level1 := ["bp1", "bp2"], level2 := [], cells := fun _ _ => none }

/-- An environment where the companion table exists but the image's row
key is absent from it. -/
def rowAbsentEnv : LoadEnv :=
  { files := ["proj/labeled-data/v1/CollectedData_sc.h5"]
    tables := fun p =>
      if p == "proj/labeled-data/v1/CollectedData_sc.h5" then some rowAbsentTable
      else none
    images := fun _ => some (5, 5) }

/-- The decimal digit run produced by `Nat.repr` (without the fuel). -/
def decDigits (n : ℕ) : List Char :=
  Nat.toDigitsCore 10 (n + 1) n []

theorem filterFirstMatch_eq (filters : List String) (item : String) :
    filterFirstMatch filters item =
      if filters.any (fun p => fnmatchB item p) then some item else none := by
  induction filters with
  | nil => rfl
  | cons f fs ih => by_cases h : fnmatchB item f <;> simp [filterFirstMatch, h, ih]

theorem filter_dataset_eq (dataset filters : List String) :
    filter_dataset dataset filters =
      dataset.filter (fun d => filters.any (fun p => fnmatchB d p)) := by
  have aux : ∀ (ds acc : List String),
      ds.foldl
        (fun out item =>
          match filterFirstMatch filters item with
          | some it => out ++ [it]
          | none => out) acc
      = acc ++ ds.filter (fun d => filters.any (fun p => fnmatchB d p)) := by
    intro ds
    induction ds with
    | nil => intro acc; simp
    | cons d rest ih =>
      intro acc
      rw [List.foldl_cons, filterFirstMatch_eq]
      by_cases h : (filters.any (fun p => fnmatchB d p)) = true
      · rw [if_pos h, ih]
        simp [List.filter_cons, h]
      · rw [if_neg h, ih]
        simp [List.filter_cons, h]
  simpa [filter_dataset] using aux dataset []

/-- C6: `filter_dataset` keeps exactly the paths that match at least one
shell-glob pattern (logical OR across the patterns); in particular
`filter_dataset ["a/1.png","b/2.png"] ["a/*"] = ["a/1.png"]`, and an empty
pattern list keeps nothing. -/
theorem filter_dataset_or_semantics :
    (∀ (dataset filters : List String) (x : String),
        x ∈ filter_dataset dataset filters ↔
          x ∈ dataset ∧ filters.any (fun p => fnmatchB x p) = true)
    ∧ filter_dataset ["a/1.png", "b/2.png"] ["a/*"] = ["a/1.png"]
    ∧ (∀ dataset : List String, filter_dataset dataset [] = []) := by
  refine ⟨fun dataset filters x => ?_, by decide, fun dataset => ?_⟩
  · rw [filter_dataset_eq]
    simp [List.mem_filter]
  · rw [filter_dataset_eq]
    simp

/-- C10: `filter_dataset` emits each input position at most once, in the
input order (its output is a sublist of the input), even when a path
matches several patterns. -/
theorem filter_dataset_sublist_once :
    (∀ dataset filters : List String,
        List.Sublist (filter_dataset dataset filters) dataset)
    ∧ filter_dataset ["a"] ["*", "a*"] = ["a"] := by
  refine ⟨fun dataset filters => ?_, by decide⟩
  rw [filter_dataset_eq]
  exact List.filter_sublist dataset

/-- C7: percent→pixel (parser) is a right inverse of pixel→percent
(annotation loader) for every nonzero dimension; in particular pixel
coordinates (50, 25) on a 100×50 image survive the round trip. -/
theorem percent_pixel_round_trip :
    (∀ px dim : ℚ, dim ≠ 0 → pct_to_pixel (pixel_to_pct px dim) dim = px)
    ∧ pct_to_pixel (pixel_to_pct 50 100) 100 = 50
    ∧ pct_to_pixel (pixel_to_pct 25 50) 50 = 25 := by
  refine ⟨fun px dim h => ?_, by norm_num [pct_to_pixel, pixel_to_pct],
    by norm_num [pct_to_pixel, pixel_to_pct]⟩
  unfold pct_to_pixel pixel_to_pct
  field_simp

theorem percent_pixel_round_trip_witness :
    (100 : ℚ) ≠ 0 ∧ pct_to_pixel (pixel_to_pct 50 100) 100 = 50 :=
  ⟨by norm_num, percent_pixel_round_trip.1 50 100 (by norm_num)⟩

set_option maxRecDepth 8000 in
theorem hex2_spec : ∀ n : ℕ, n < 256 →
    (hex2 n).data.length = 2
    ∧ (∀ d ∈ (hex2 n).data, d ∈ "0123456789abcdef".data)
    ∧ hexDecode (hex2 n).data = n := by decide

theorem clamp_component_bounds (x : ℤ) :
    0 ≤ max 0 (min x 255) ∧ max 0 (min x 255) ≤ 255 ∧
      (max 0 (min x 255)).toNat < 256 := by
  refine ⟨le_max_left _ _, max_le (by norm_num) (min_le_right _ _), ?_⟩
  omega

/-- C8: the label-configuration color pipeline truncates each float
channel times 255 toward zero, clamps each integer channel into [0,255]
independently, and encodes `#rrggbb` with two lowercase hex digits per
channel (the decoder recovers exactly the clamped channel values). -/
theorem rgb_hex_encoding :
    (∀ c : ℚ × ℚ × ℚ,
        float_rgb_to_int_rgb c =
          (pyInt (c.1 * 255), pyInt (c.2.1 * 255), pyInt (c.2.2 * 255)))
    ∧ (∀ ch : ℤ × ℤ × ℤ,
        clamp_rgb ch =
          (max 0 (min ch.1 255), max 0 (min ch.2.1 255), max 0 (min ch.2.2 255))
        ∧ (0 ≤ max 0 (min ch.1 255) ∧ max 0 (min ch.1 255) ≤ 255)
        ∧ (rgb_to_hex ch).data.length = 7
        ∧ (rgb_to_hex ch).data.getD 0 ' ' = '#'
        ∧ (∀ d ∈ (rgb_to_hex ch).data.drop 1, d ∈ "0123456789abcdef".data)
        ∧ hexDecode (((rgb_to_hex ch).data.drop 1).take 2)
            = (max 0 (min ch.1 255)).toNat
        ∧ hexDecode (((rgb_to_hex ch).data.drop 3).take 2)
            = (max 0 (min ch.2.1 255)).toNat
        ∧ hexDecode (((rgb_to_hex ch).data.drop 5).take 2)
            = (max 0 (min ch.2.2 255)).toNat) := by
  constructor
  · intro c
    rfl
  · intro ch
    obtain ⟨r, g, b⟩ := ch
    have hr := clamp_component_bounds r
    have hg := clamp_component_bounds g
    have hb := clamp_component_bounds b
    have sr := hex2_spec (max 0 (min r 255)).toNat hr.2.2
    have sg := hex2_spec (max 0 (min g 255)).toNat hg.2.2
    have sb := hex2_spec (max 0 (min b 255)).toNat hb.2.2
    obtain ⟨r1, r2, hrr⟩ := List.length_eq_two.mp sr.1
    obtain ⟨g1, g2, hgg⟩ := List.length_eq_two.mp sg.1
    obtain ⟨b1, b2, hbb⟩ := List.length_eq_two.mp sb.1
    have hdf : (rgb_to_hex (r, g, b)).data
        = ['#', r1, r2, g1, g2, b1, b2] := by
      show ("#" ++ hex2 (max 0 (min r 255)).toNat
        ++ hex2 (max 0 (min g 255)).toNat
        ++ hex2 (max 0 (min b 255)).toNat).data = _
      simp [String.data_append, hrr, hgg, hbb]
    refine ⟨rfl, ⟨hr.1, hr.2.1⟩, ?_, ?_, ?_, ?_, ?_, ?_⟩
    · rw [hdf]
      rfl
    · rw [hdf]
      rfl
    · rw [hdf]
      intro d hd
      have hr' := sr.2.1
      have hg' := sg.2.1
      have hb' := sb.2.1
      rw [hrr] at hr'
      rw [hgg] at hg'
      rw [hbb] at hb'
      have hd' : d = r1 ∨ d = r2 ∨ d = g1 ∨ d = g2 ∨ d = b1 ∨ d = b2 := by
        simpa using hd
      rcases hd' with h | h | h | h | h | h
      · exact hr' d (by simp [h])
      · exact hr' d (by simp [h])
      · exact hg' d (by simp [h])
      · exact hg' d (by simp [h])
      · exact hb' d (by simp [h])
      · exact hb' d (by simp [h])
    · rw [hdf]
      have hstep : ((['#', r1, r2, g1, g2, b1, b2].drop 1).take 2) = [r1, r2] := rfl
      rw [hstep, ← hrr]
      exact sr.2.2
    · rw [hdf]
      have hstep : ((['#', r1, r2, g1, g2, b1, b2].drop 3).take 2) = [g1, g2] := rfl
      rw [hstep, ← hgg]
      exact sg.2.2
    · rw [hdf]
      have hstep : ((['#', r1, r2, g1, g2, b1, b2].drop 5).take 2) = [b1, b2] := rfl
      rw [hstep, ← hbb]
      exact sb.2.2

theorem rgb_hex_encoding_witness :
    (rgb_to_hex (10, 300, -5)).data.length = 7 :=
  (rgb_hex_encoding.2 (10, 300, -5)).2.2.1

theorem kptRecord_ok (e : Entry) (ind : Option String) (kpt : RItem)
    (rec : IRec) (h : kptRecord e ind kpt = .ok rec) :
    rec.individual = ind ∧ kpt.kptlabels.head? = some rec.bodypart := by
  unfold kptRecord at h
  cases hh : kpt.kptlabels.head? with
  | none => rw [hh] at h; exact absurd h (by simp)
  | some bp =>
    rw [hh] at h
    cases h
    exact ⟨rfl, rfl⟩

theorem kptLoop_ok (e : Entry) :
    ∀ (l : List (String × RItem)) (out res : List IRec),
      kptLoop e l out = .ok res →
      res.length = out.length + l.length
      ∧ ∀ r ∈ res, r ∈ out ∨ r.individual = none := by
  intro l
  induction l with
  | nil =>
    intro out res h
    cases h
    exact ⟨by simp, fun r hr => Or.inl hr⟩
  | cons p rest ih =>
    intro out res h
    obtain ⟨_, kpt⟩ := p
    unfold kptLoop at h
    cases hk : kptRecord e none kpt with
    | error er => rw [hk] at h; exact absurd h (by simp)
    | ok rec =>
      rw [hk] at h
      obtain ⟨hlen, hmem⟩ := ih (out ++ [rec]) res h
      refine ⟨by simp at hlen ⊢; omega, fun r hr => ?_⟩
      rcases hmem r hr with hro | hni
      · rcases List.mem_append.mp hro with hro | hrec
        · exact Or.inl hro
        · right
          have : r = rec := by simpa using hrec
          rw [this]
          exact (kptRecord_ok e none kpt rec hk).1
      · exact Or.inr hni

/-- C1 (amended): on a task whose result bag holds at most one rectangle
(in particular the `r1`,`k1`,`k2`,`k3` scenario), the multi-animal branch
is not taken, the relation edges are ignored, and the parser emits one
record per indexed keypoint, every one with `individual = none`. -/
theorem single_rectangle_parse (e : Entry) (key : String) (anns : List LSAnn)
    (first : LSAnn) (out : List IRec)
    (hk : entryGet e key = some anns) (hf : anns.head? = some first)
    (hone : (filter_and_index first.result "rectanglelabels").length ≤ 1)
    (hok : get_annotation_from_entry e key = .ok out) :
    out.length = (filter_and_index first.result "keypointlabels").length
    ∧ ∀ r ∈ out, r.individual = none := by
  unfold get_annotation_from_entry at hok
  rw [hk] at hok
  dsimp only at hok
  rw [hf] at hok
  dsimp only at hok
  rw [if_neg (by omega)] at hok
  obtain ⟨hlen, hmem⟩ := kptLoop_ok e _ [] out hok
  refine ⟨by simpa using hlen, fun r hr => ?_⟩
  rcases hmem r hr with hempty | hni
  · exact absurd hempty (by simp)
  · exact hni

theorem single_rectangle_parse_witness :
    entryGet oneRectTask "annotations" = some [{ result := oneRectResult }]
    ∧ ([{ result := oneRectResult }] : List LSAnn).head?
        = some { result := oneRectResult }
    ∧ (filter_and_index oneRectResult "rectanglelabels").length ≤ 1
    ∧ get_annotation_from_entry oneRectTask "annotations" = .ok oneRectOut
    ∧ (oneRectOut.length
        = (filter_and_index oneRectResult "keypointlabels").length
       ∧ ∀ r ∈ oneRectOut, r.individual = none) :=
  ⟨rfl, rfl, by decide, rfl,
    single_rectangle_parse oneRectTask "annotations" _ _ _ rfl rfl
      (by decide) rfl⟩

/-- C1 counterexample: on the task with one rectangle `r1` (label
`animal_A`), keypoints `k1`,`k2` related to `r1` and an unrelated `k3`,
the parser emits three records, none of which carries `animal_A` as its
individual — all three have `individual = none`, contradicting the claimed
two `animal_A` records plus one unattached record. -/
theorem relation_consumption_counterexample :
    ((get_annotation_from_entry oneRectTask "annotations").toOption.map
        (fun out =>
          (out.length,
           out.countP (fun r => r.individual == some "animal_A"),
           out.countP (fun r => r.individual == none))))
      = some (3, 0, 3) := by
  decide

theorem relLoop_ok (e : Entry) (keypoints : List (String × RItem)) (indv : RItem) :
    ∀ (rels : List String) (out res : List IRec),
      relLoop e keypoints indv rels out = .ok res →
      res.length = out.length + rels.length
      ∧ ∀ r ∈ res, r ∈ out ∨ ∃ rid ∈ rels,
          (dictGet? keypoints rid).map (fun kpt => kpt.kptlabels.head?)
            = some (some r.bodypart)
          ∧ r.individual = indv.rectlabels.head? := by
  intro rels
  induction rels with
  | nil =>
    intro out res h
    cases h
    exact ⟨by simp, fun r hr => Or.inl hr⟩
  | cons rid rest ih =>
    intro out res h
    unfold relLoop at h
    cases hkk : dictGet? keypoints rid with
    | none => rw [hkk] at h; exact absurd h (by simp)
    | some kpt =>
      rw [hkk] at h
      dsimp only at h
      cases hlb : indv.rectlabels.head? with
      | none => rw [hlb] at h; exact absurd h (by simp)
      | some lbl =>
        rw [hlb] at h
        dsimp only at h
        cases hrec : kptRecord e (some lbl) kpt with
        | error er => rw [hrec] at h; exact absurd h (by simp)
        | ok rec =>
          rw [hrec] at h
          dsimp only at h
          obtain ⟨hlen, hmem⟩ := ih (out ++ [rec]) res h
          refine ⟨by simp at hlen ⊢; omega, fun r hr => ?_⟩
          rcases hmem r hr with hro | ⟨rid', hrid', hmap, hind⟩
          · rcases List.mem_append.mp hro with hro | hrr
            · exact Or.inl hro
            · right
              have hre : r = rec := by simpa using hrr
              obtain ⟨hi, hbp⟩ := kptRecord_ok e (some lbl) kpt rec hrec
              refine ⟨rid, List.mem_cons_self rid rest, ?_, ?_⟩
              · rw [hkk, hre]
                simp [hbp]
              · rw [hre, hi]
          · exact Or.inr ⟨rid', List.mem_cons_of_mem rid hrid', hmap,
              by rw [hind, hlb]⟩

theorem indvLoop_ok (e : Entry) (keypoints : List (String × RItem))
    (relations : List (String × List String)) :
    ∀ (l : List (String × RItem)) (out res : List IRec),
      indvLoop e keypoints relations l out = .ok res →
      res.length = out.length
          + (l.map (fun p => ((dictGet? relations p.1).getD []).length)).sum
      ∧ ∀ r ∈ res, r ∈ out ∨ ∃ p ∈ l,
          ∃ rid ∈ (dictGet? relations p.1).getD [],
            (dictGet? keypoints rid).map (fun kpt => kpt.kptlabels.head?)
              = some (some r.bodypart)
            ∧ r.individual = p.2.rectlabels.head? := by
  intro l
  induction l with
  | nil =>
    intro out res h
    cases h
    exact ⟨by simp, fun r hr => Or.inl hr⟩
  | cons p rest ih =>
    intro out res h
    obtain ⟨iid, indv⟩ := p
    unfold indvLoop at h
    cases hrl : dictGet? relations iid with
    | none => rw [hrl] at h; exact absurd h (by simp)
    | some rels =>
      rw [hrl] at h
      dsimp only at h
      cases hinner : relLoop e keypoints indv rels out with
      | error er => rw [hinner] at h; exact absurd h (by simp)
      | ok out' =>
        rw [hinner] at h
        dsimp only at h
        obtain ⟨hlen1, hmem1⟩ := relLoop_ok e keypoints indv rels out out' hinner
        obtain ⟨hlen2, hmem2⟩ := ih out' res h
        constructor
        · rw [hlen2, hlen1]
          simp [hrl]
          ring
        · intro r hr
          rcases hmem2 r hr with hro' | ⟨q, hq, rest'⟩
          · rcases hmem1 r hro' with hro | ⟨rid, hrid, hmap, hind⟩
            · exact Or.inl hro
            · refine Or.inr ⟨(iid, indv), List.mem_cons_self _ rest, rid, ?_, hmap, hind⟩
              simpa [hrl] using hrid
          · exact Or.inr ⟨q, List.mem_cons_of_mem _ hq, rest'⟩

/-- C2 (amended): when the result bag holds more than one rectangle, every
emitted record arises from a relation edge between some rectangle and an
indexed keypoint — the record's `individual` is that rectangle's first
label and its `bodypart` that keypoint's first label — and the number of
records equals the total number of relation entries of the rectangles, so
keypoints with no relation edge are silently dropped (not emitted with
`individual = none` as the claim states).  (With at most one rectangle,
all keypoints are emitted with `individual = none`.) -/
theorem multi_rectangle_records_from_edges (e : Entry) (key : String)
    (anns : List LSAnn) (first : LSAnn) (out : List IRec)
    (hk : entryGet e key = some anns) (hf : anns.head? = some first)
    (hmulti : (filter_and_index first.result "rectanglelabels").length > 1)
    (hok : get_annotation_from_entry e key = .ok out) :
    out.length = ((filter_and_index first.result "rectanglelabels").map
        (fun p => ((dictGet? (build_relation_map first.result) p.1).getD []).length)).sum
    ∧ ∀ r ∈ out, ∃ p ∈ filter_and_index first.result "rectanglelabels",
        ∃ rid ∈ (dictGet? (build_relation_map first.result) p.1).getD [],
          (dictGet? (filter_and_index first.result "keypointlabels") rid).map
              (fun kpt => kpt.kptlabels.head?) = some (some r.bodypart)
          ∧ r.individual = p.2.rectlabels.head? := by
  unfold get_annotation_from_entry at hok
  rw [hk] at hok
  dsimp only at hok
  rw [hf] at hok
  dsimp only at hok
  rw [if_pos hmulti] at hok
  obtain ⟨hlen, hmem⟩ := indvLoop_ok e _ _ _ [] out hok
  refine ⟨by simpa using hlen, fun r hr => ?_⟩
  rcases hmem r hr with hempty | hx
  · exact absurd hempty (by simp)
  · exact hx

theorem multi_rectangle_records_from_edges_witness :
    entryGet twoRectTask "annotations" = some [{ result := twoRectResult }]
    ∧ (filter_and_index twoRectResult "rectanglelabels").length > 1
    ∧ get_annotation_from_entry twoRectTask "annotations" = .ok twoRectOut
    ∧ (twoRectOut.length
        = ((filter_and_index twoRectResult "rectanglelabels").map
            (fun p => ((dictGet? (build_relation_map twoRectResult) p.1).getD []).length)).sum
       ∧ ∀ r ∈ twoRectOut, ∃ p ∈ filter_and_index twoRectResult "rectanglelabels",
          ∃ rid ∈ (dictGet? (build_relation_map twoRectResult) p.1).getD [],
            (dictGet? (filter_and_index twoRectResult "keypointlabels") rid).map
                (fun kpt => kpt.kptlabels.head?) = some (some r.bodypart)
            ∧ r.individual = p.2.rectlabels.head?) :=
  ⟨rfl, by decide, rfl,
    multi_rectangle_records_from_edges twoRectTask "annotations" _ _ _ rfl rfl
      (by decide) rfl⟩

/-- C2 counterexample: with rectangles `r1`,`r2`, keypoint `k1` related to
`r1`, keypoint `k2` related to `r2` and an unrelated keypoint `k3`
(`nose3`), the code emits only two records: `k3` is silently dropped — no
record mentions `nose3` and no record has `individual = none`, contradicting
the claim that unconsumed keypoints are still emitted. -/
theorem unconsumed_keypoint_dropped_counterexample :
    ((get_annotation_from_entry twoRectTask "annotations").toOption.map
        (fun out =>
          (out.length,
           out.countP (fun r => r.bodypart == "nose3"),
           out.countP (fun r => r.individual == none))))
      = some (2, 0, 0) := by
  decide

theorem kptRecord_not_value_error (e : Entry) (ind : Option String)
    (kpt : RItem) (er : PyErr) (h : kptRecord e ind kpt = .error er) :
    ∀ m, er ≠ .valueError m := by
  unfold kptRecord at h
  cases hh : kpt.kptlabels.head? with
  | none =>
    rw [hh] at h
    cases h
    intro m hm
    exact absurd hm (by simp)
  | some bp => rw [hh] at h; exact absurd h (by simp)

theorem kptLoop_not_value_error (e : Entry) :
    ∀ (l : List (String × RItem)) (out : List IRec) (er : PyErr),
      kptLoop e l out = .error er → ∀ m, er ≠ .valueError m := by
  intro l
  induction l with
  | nil => intro out er h; exact absurd h (by simp [kptLoop])
  | cons p rest ih =>
    intro out er h
    obtain ⟨_, kpt⟩ := p
    unfold kptLoop at h
    cases hk : kptRecord e none kpt with
    | error er' =>
      rw [hk] at h
      cases h
      exact kptRecord_not_value_error e none kpt er hk
    | ok rec =>
      rw [hk] at h
      dsimp only at h
      exact ih (out ++ [rec]) er h

theorem relLoop_not_value_error (e : Entry) (keypoints : List (String × RItem))
    (indv : RItem) :
    ∀ (rels : List String) (out : List IRec) (er : PyErr),
      relLoop e keypoints indv rels out = .error er → ∀ m, er ≠ .valueError m := by
  intro rels
  induction rels with
  | nil => intro out er h; exact absurd h (by simp [relLoop])
  | cons rid rest ih =>
    intro out er h
    unfold relLoop at h
    cases hkk : dictGet? keypoints rid with
    | none =>
      rw [hkk] at h
      cases h
      intro m hm
      exact absurd hm (by simp)
    | some kpt =>
      rw [hkk] at h
      dsimp only at h
      cases hlb : indv.rectlabels.head? with
      | none =>
        rw [hlb] at h
        cases h
        intro m hm
        exact absurd hm (by simp)
      | some lbl =>
        rw [hlb] at h
        dsimp only at h
        cases hrec : kptRecord e (some lbl) kpt with
        | error er' =>
          rw [hrec] at h
          cases h
          exact kptRecord_not_value_error e (some lbl) kpt er hrec
        | ok rec =>
          rw [hrec] at h
          dsimp only at h
          exact ih (out ++ [rec]) er h

theorem indvLoop_not_value_error (e : Entry) (keypoints : List (String × RItem))
    (relations : List (String × List String)) :
    ∀ (l : List (String × RItem)) (out : List IRec) (er : PyErr),
      indvLoop e keypoints relations l out = .error er →
      ∀ m, er ≠ .valueError m := by
  intro l
  induction l with
  | nil => intro out er h; exact absurd h (by simp [indvLoop])
  | cons p rest ih =>
    intro out er h
    obtain ⟨iid, indv⟩ := p
    unfold indvLoop at h
    cases hrl : dictGet? relations iid with
    | none =>
      rw [hrl] at h
      cases h
      intro m hm
      exact absurd hm (by simp)
    | some rels =>
      rw [hrl] at h
      dsimp only at h
      cases hinner : relLoop e keypoints indv rels out with
      | error er' =>
        rw [hinner] at h
        cases h
        exact relLoop_not_value_error e keypoints indv rels out er hinner
      | ok out' =>
        rw [hinner] at h
        dsimp only at h
        exact ih out' er h

theorem get_annot_not_value_error (e : Entry) (key : String) (er : PyErr)
    (h : get_annotation_from_entry e key = .error er) :
    ∀ m, er ≠ .valueError m := by
  unfold get_annotation_from_entry at h
  cases hk : entryGet e key with
  | none =>
    rw [hk] at h
    cases h
    intro m hm
    exact absurd hm (by simp)
  | some anns =>
    rw [hk] at h
    dsimp only at h
    cases hf : anns.head? with
    | none =>
      rw [hf] at h
      cases h
      intro m hm
      exact absurd hm (by simp)
    | some first =>
      rw [hf] at h
      dsimp only at h
      by_cases hc : (filter_and_index first.result "rectanglelabels").length > 1
      · rw [if_pos hc] at h
        exact indvLoop_not_value_error e _ _ _ [] er h
      · rw [if_neg hc] at h
        exact kptLoop_not_value_error e _ [] er h

/-- C3 (amended): parsing a task fails with the structural
`ValueError('Cannot find annotation data for entry!')` — a fixed message
that does not carry the task identifier — exactly when the task has
neither an `annotations` nor a legacy `completions` field; a task with
at least one of them can never raise this structural error. -/
theorem structural_error_iff_missing_keys (e : Entry) :
    read_annotations [e]
        = .error (.valueError "Cannot find annotation data for entry!")
      ↔ (e.annotations = none ∧ e.completions = none) := by
  unfold read_annotations
  cases ha : e.annotations with
  | some l =>
    cases hg : get_annotation_from_entry e "annotations" with
    | error er =>
      simp only [List.foldlM, ha, Option.isSome_some, if_true, hg]
      constructor
      · intro h
        have : er = .valueError "Cannot find annotation data for entry!" := by
          simpa using h
        exact absurd this
          (get_annot_not_value_error e "annotations" er hg _)
      · intro h
        exact absurd h.1 (by simp [ha])
    | ok d =>
      simp only [List.foldlM, ha, Option.isSome_some, if_true, hg]
      constructor
      · intro h
        exact absurd h (by simp)
      · intro h
        exact absurd h.1 (by simp [ha])
  | none =>
    cases hc : e.completions with
    | some l =>
      cases hg : get_annotation_from_entry e "completions" with
      | error er =>
        simp only [List.foldlM, ha, hc, Option.isSome_some, Option.isSome_none,
          Bool.false_eq_true, if_false, if_true, hg]
        constructor
        · intro h
          have : er = .valueError "Cannot find annotation data for entry!" := by
            simpa using h
          exact absurd this
            (get_annot_not_value_error e "completions" er hg _)
        · intro h
          exact absurd h.2 (by simp [hc])
      | ok d =>
        simp only [List.foldlM, ha, hc, Option.isSome_some, Option.isSome_none,
          Bool.false_eq_true, if_false, if_true, hg]
        constructor
        · intro h
          exact absurd h (by simp)
        · intro h
          exact absurd h.2 (by simp [hc])
    | none =>
      simp [List.foldlM, ha, hc]

/-- C3 counterexample: two tasks that differ only in their identifier and
lack both annotation keys produce the *same* structural error — the fixed
`ValueError('Cannot find annotation data for entry!')` — so the error
cannot carry the task identifier. -/
theorem structural_error_lacks_task_id :
    noAnnTask "42" ≠ noAnnTask "77"
    ∧ read_annotations [noAnnTask "42"]
        = .error (.valueError "Cannot find annotation data for entry!")
    ∧ read_annotations [noAnnTask "42"] = read_annotations [noAnnTask "77"] := by
  refine ⟨by decide, rfl, rfl⟩

/-- C9: the per-image annotation loader is total — any exception raised in
its body is swallowed by the bare `except` and surfaces as `None`; a
missing companion table returns `None` without an error; and at a concrete
environment whose table lacks the image's row key it returns `None`. -/
theorem load_never_raises :
    (∀ (cfg : DlcConfig) (p : String) (env : LoadEnv) (er : Unit),
        loadBody cfg p env = .error er →
        load_dlc_annotations_for_image cfg p env = none)
    ∧ (∀ (cfg : DlcConfig) (p : String) (env : LoadEnv),
        env.files.contains (annotPathOf cfg p) = false →
        load_dlc_annotations_for_image cfg p env = none)
    ∧ load_dlc_annotations_for_image loadCfg loadImgPath rowAbsentEnv = none := by
  refine ⟨?_, ?_, rfl⟩
  · intro cfg p env er h
    unfold load_dlc_annotations_for_image
    rw [h]
  · intro cfg p env h
    unfold load_dlc_annotations_for_image loadBody
    dsimp only
    rw [h]
    rfl

theorem load_never_raises_witness :
    loadBody loadCfg loadImgPath rowAbsentEnv = .error ()
    ∧ load_dlc_annotations_for_image loadCfg loadImgPath rowAbsentEnv = none :=
  ⟨rfl, load_never_raises.1 loadCfg loadImgPath rowAbsentEnv () rfl⟩

theorem toDigitsCore_shift :
    ∀ (n f : ℕ) (ds : List Char), n < f →
      Nat.toDigitsCore 10 f n ds = Nat.toDigitsCore 10 (n + 1) n [] ++ ds := by
  intro n
  induction n using Nat.strong_induction_on with
  | _ n ih =>
    intro f ds hf
    obtain ⟨f', rfl⟩ : ∃ f', f = f' + 1 := ⟨f - 1, by omega⟩
    by_cases h10 : n / 10 = 0
    · rw [show Nat.toDigitsCore 10 (f' + 1) n ds = Nat.digitChar (n % 10) :: ds by
        simp [Nat.toDigitsCore, h10]]
      rw [show Nat.toDigitsCore 10 (n + 1) n [] = [Nat.digitChar (n % 10)] by
        simp [Nat.toDigitsCore, h10]]
      rfl
    · have hge : 10 ≤ n := by
        by_contra hlt
        exact h10 (Nat.div_eq_of_lt (by omega))
      have hdiv : n / 10 < n := Nat.div_lt_self (by omega) (by norm_num)
      rw [show Nat.toDigitsCore 10 (f' + 1) n ds
          = Nat.toDigitsCore 10 f' (n / 10) (Nat.digitChar (n % 10) :: ds) by
        simp [Nat.toDigitsCore, h10]]
      rw [show Nat.toDigitsCore 10 (n + 1) n []
          = Nat.toDigitsCore 10 n (n / 10) [Nat.digitChar (n % 10)] by
        simp [Nat.toDigitsCore, h10]]
      rw [ih (n / 10) hdiv f' (Nat.digitChar (n % 10) :: ds) (by omega)]
      rw [ih (n / 10) hdiv n [Nat.digitChar (n % 10)] (by omega)]
      simp

theorem decDigits_lt_ten (n : ℕ) (h : n < 10) :
    decDigits n = [Nat.digitChar n] := by
  unfold decDigits
  rw [show Nat.toDigitsCore 10 (n + 1) n [] = [Nat.digitChar (n % 10)] by
    simp [Nat.toDigitsCore, Nat.div_eq_of_lt h]]
  rw [Nat.mod_eq_of_lt h]

theorem decDigits_ge_ten (n : ℕ) (h : 10 ≤ n) :
    decDigits n = decDigits (n / 10) ++ [Nat.digitChar (n % 10)] := by
  have h10 : ¬ n / 10 = 0 := by
    have : 0 < n / 10 := Nat.div_pos h (by norm_num)
    omega
  unfold decDigits
  rw [show Nat.toDigitsCore 10 (n + 1) n []
      = Nat.toDigitsCore 10 n (n / 10) [Nat.digitChar (n % 10)] by
    simp [Nat.toDigitsCore, h10]]
  exact toDigitsCore_shift (n / 10) n [Nat.digitChar (n % 10)]
    (Nat.div_lt_self (by omega) (by norm_num))

theorem decDigits_ne_nil (n : ℕ) : decDigits n ≠ [] := by
  by_cases h : n < 10
  · rw [decDigits_lt_ten n h]
    simp
  · rw [decDigits_ge_ten n (by omega)]
    simp

theorem digitChar_inj_below_ten :
    ∀ a < 10, ∀ b < 10, Nat.digitChar a = Nat.digitChar b → a = b := by
  decide

theorem decDigits_inj : ∀ m n : ℕ, decDigits m = decDigits n → m = n := by
  intro m
  induction m using Nat.strong_induction_on with
  | _ m ih =>
    intro n h
    by_cases hm : m < 10 <;> by_cases hn : n < 10
    · rw [decDigits_lt_ten m hm, decDigits_lt_ten n hn] at h
      exact digitChar_inj_below_ten m hm n hn (by simpa using h)
    · rw [decDigits_lt_ten m hm, decDigits_ge_ten n (by omega)] at h
      have hlen := congrArg List.length h
      rw [List.length_append] at hlen
      simp only [List.length_singleton] at hlen
      have h0 : (decDigits (n / 10)).length = 0 := by omega
      exact absurd (List.length_eq_zero.mp h0) (decDigits_ne_nil (n / 10))
    · rw [decDigits_ge_ten m (by omega), decDigits_lt_ten n hn] at h
      have hlen := congrArg List.length h
      rw [List.length_append] at hlen
      simp only [List.length_singleton] at hlen
      have h0 : (decDigits (m / 10)).length = 0 := by omega
      exact absurd (List.length_eq_zero.mp h0) (decDigits_ne_nil (m / 10))
    · rw [decDigits_ge_ten m (by omega), decDigits_ge_ten n (by omega)] at h
      obtain ⟨h1, h2⟩ := List.append_inj' h (by simp)
      have e1 : m / 10 = n / 10 :=
        ih (m / 10) (Nat.div_lt_self (by omega) (by norm_num)) (n / 10) h1
      have e2 : m % 10 = n % 10 :=
        digitChar_inj_below_ten (m % 10) (Nat.mod_lt _ (by norm_num))
          (n % 10) (Nat.mod_lt _ (by norm_num)) (by simpa using h2)
      omega

theorem natRepr_inj (m n : ℕ) (h : Nat.repr m = Nat.repr n) : m = n := by
  have hd : decDigits m = decDigits n := congrArg String.data h
  exact decDigits_inj m n hd

theorem backupCandidate_inj_pos (orig base ext : String) (m n : ℕ)
    (hm : 0 < m) (hn : 0 < n)
    (h : backupCandidate orig base ext m = backupCandidate orig base ext n) :
    m = n := by
  unfold backupCandidate at h
  rw [if_neg (by omega), if_neg (by omega)] at h
  have hd := congrArg String.data h
  simp only [String.data_append] at hd
  have h1 := List.append_cancel_right hd
  have h2 := List.append_cancel_left h1
  exact natRepr_inj m n (String.ext h2)

theorem fsExists_true_mem_keys {β : Type} (fs : FS β) (p : String)
    (h : fsExists fs p = true) : p ∈ fs.map Prod.fst := by
  unfold fsExists at h
  rw [List.any_eq_true] at h
  obtain ⟨e, he, heq⟩ := h
  exact List.mem_map.mpr ⟨e, he, by simpa using heq⟩

theorem exists_free_candidate {β : Type} (fs : FS β) (orig base ext : String) :
    ∃ j, 0 < j ∧ j ≤ fs.length + 1
      ∧ fsExists fs (backupCandidate orig base ext j) = false := by
  by_contra hcon
  push_neg at hcon
  have hall : ∀ j, 0 < j → j ≤ fs.length + 1 →
      backupCandidate orig base ext j ∈ fs.map Prod.fst := by
    intro j h1 h2
    have hne := hcon j h1 h2
    have hex : fsExists fs (backupCandidate orig base ext j) = true := by
      cases hb : fsExists fs (backupCandidate orig base ext j)
      · exact absurd hb hne
      · rfl
    exact fsExists_true_mem_keys fs _ hex
  have hinj : Function.Injective (fun i => backupCandidate orig base ext (i + 1)) := by
    intro i j hij
    have := backupCandidate_inj_pos orig base ext (i + 1) (j + 1)
      (by omega) (by omega) hij
    omega
  have hnodup : ((List.range (fs.length + 1)).map
      (fun i => backupCandidate orig base ext (i + 1))).Nodup :=
    (List.nodup_range _).map hinj
  have hsub : (List.range (fs.length + 1)).map
      (fun i => backupCandidate orig base ext (i + 1)) ⊆ fs.map Prod.fst := by
    intro x hx
    obtain ⟨i, hi, rfl⟩ := List.mem_map.mp hx
    rw [List.mem_range] at hi
    exact hall (i + 1) (by omega) (by omega)
  have hsp := List.Nodup.subperm hnodup hsub
  have hlen := List.Subperm.length_le hsp
  simp at hlen

theorem backupLoop_spec {β : Type} (fs : FS β) (cand : ℕ → String) :
    ∀ (fuel start : ℕ),
      (∃ j, start ≤ j ∧ j < start + fuel ∧ fsExists fs (cand j) = false) →
      fsExists fs (cand (backupLoop fs cand fuel start)) = false
      ∧ start ≤ backupLoop fs cand fuel start
      ∧ ∀ m, start ≤ m → m < backupLoop fs cand fuel start →
          fsExists fs (cand m) = true := by
  intro fuel
  induction fuel with
  | zero =>
    intro start hex
    obtain ⟨j, hj1, hj2, _⟩ := hex
    omega
  | succ f ih =>
    intro start hex
    unfold backupLoop
    cases hb : fsExists fs (cand start) with
    | false =>
      rw [if_neg (by simp [hb])]
      exact ⟨hb, le_refl _, fun m h1 h2 => by omega⟩
    | true =>
      rw [if_pos (by simp [hb])]
      have hex' : ∃ j, start + 1 ≤ j ∧ j < start + 1 + f
          ∧ fsExists fs (cand j) = false := by
        obtain ⟨j, hj1, hj2, hjf⟩ := hex
        refine ⟨j, ?_, by omega, hjf⟩
        rcases Nat.eq_or_lt_of_le hj1 with rfl | hlt
        · rw [hjf] at hb
          exact absurd hb (by simp)
        · omega
      obtain ⟨hfree, hge, hmin⟩ := ih (start + 1) hex'
      refine ⟨hfree, by omega, fun m h1 h2 => ?_⟩
      rcases Nat.eq_or_lt_of_le h1 with rfl | hlt
      · exact hb
      · exact hmin m (by omega) h2

theorem find?_map_set {β : Type} (p : String) (v : β) :
    ∀ l : FS β, l.any (fun e => e.1 == p) = true →
      ((l.map (fun e => if e.1 == p then (e.1, v) else e)).find?
          (fun e => e.1 == p)).map (fun e => e.2) = some v := by
  intro l
  induction l with
  | nil => intro h; simp at h
  | cons e rest ih =>
    intro h
    by_cases he : (e.1 == p) = true
    · rw [List.map_cons, if_pos he, List.find?_cons_of_pos _ (by simpa using he)]
      simp
    · have hr : rest.any (fun e => e.1 == p) = true := by
        rw [List.any_cons] at h
        simpa [he] using h
      rw [List.map_cons, if_neg he, List.find?_cons_of_neg _ (by simpa using he)]
      exact ih hr

theorem fsGet?_fsSet_self {β : Type} (fs : FS β) (p : String) (v : β) :
    fsGet? (fsSet fs p v) p = some v := by
  unfold fsSet fsGet?
  by_cases hany : fs.any (fun e => e.1 == p) = true
  · rw [if_pos hany]
    exact find?_map_set p v fs hany
  · rw [if_neg hany, List.find?_append]
    have hnone : fs.find? (fun e => e.1 == p) = none := by
      rw [List.find?_eq_none]
      intro x hx
      have hfalse := Bool.not_eq_true _ |>.mp hany
      rw [List.any_eq_false] at hfalse
      exact hfalse x hx
    rw [hnone]
    simp [List.find?]

theorem fsGet?_fsSet_other {β : Type} (fs : FS β) (p q : String) (v : β)
    (hne : q ≠ p) :
    fsGet? (fsSet fs p v) q = fsGet? fs q := by
  unfold fsSet fsGet?
  by_cases hany : fs.any (fun e => e.1 == p) = true
  · rw [if_pos hany]
    have aux : ∀ l : FS β,
        ((l.map (fun e => if e.1 == p then (e.1, v) else e)).find?
            (fun e => e.1 == q)).map (fun e => e.2)
          = (l.find? (fun e => e.1 == q)).map (fun e => e.2) := by
      intro l
      induction l with
      | nil => simp
      | cons e rest ih =>
        by_cases hep : (e.1 == p) = true
        · have hep' : e.1 = p := eq_of_beq hep
          have heq : (e.1 == q) = false := by
            rw [hep']
            exact beq_eq_false_iff_ne.mpr (Ne.symm hne)
          rw [List.map_cons, if_pos hep,
            List.find?_cons_of_neg _ (by simp [heq]),
            List.find?_cons_of_neg _ (by simp [heq])]
          exact ih
        · by_cases heq : (e.1 == q) = true
          · rw [List.map_cons, if_neg hep,
              List.find?_cons_of_pos _ (by simpa using heq),
              List.find?_cons_of_pos _ (by simpa using heq)]
          · rw [List.map_cons, if_neg hep,
              List.find?_cons_of_neg _ (by simpa using heq),
              List.find?_cons_of_neg _ (by simpa using heq)]
            exact ih
    exact aux fs
  · rw [if_neg hany, List.find?_append]
    have h2 : (([(p, v)] : FS β).find? (fun e => e.1 == q)) = none := by
      have : (p == q) = false := beq_eq_false_iff_ne.mpr (Ne.symm hne)
      simp [List.find?, this]
    rw [h2]
    simp

theorem fsExists_of_get {β : Type} (fs : FS β) (p : String) (c : β)
    (h : fsGet? fs p = some c) : fsExists fs p = true := by
  unfold fsGet? at h
  cases hf : fs.find? (fun e => e.1 == p) with
  | none => rw [hf] at h; cases h
  | some e =>
    have hmem := List.mem_of_find?_eq_some hf
    have hpred := List.find?_some hf
    unfold fsExists
    rw [List.any_eq_true]
    exact ⟨e, hmem, hpred⟩

/-- C5: when a file exists at the destination, `backup_existing_file`
copies it (never moves it) to `<base>.backup-<n><ext>` where `n` is the
smallest positive integer whose candidate path does not exist yet; the new
path holds the original bytes and the original path still holds them too. -/
theorem backup_copies_to_first_free {β : Type} (fs : FS β)
    (origional_path : String) (content : β)
    (h : fsGet? fs origional_path = some content) :
    ∃ n fs',
      backup_existing_file fs origional_path
        = .ok (backupCandidate origional_path (splitext origional_path).1
            (splitext origional_path).2 n, fs')
      ∧ 0 < n
      ∧ fsExists fs (backupCandidate origional_path (splitext origional_path).1
          (splitext origional_path).2 n) = false
      ∧ (∀ m, 0 < m → m < n →
          fsExists fs (backupCandidate origional_path (splitext origional_path).1
            (splitext origional_path).2 m) = true)
      ∧ fsGet? fs' (backupCandidate origional_path (splitext origional_path).1
          (splitext origional_path).2 n) = some content
      ∧ fsGet? fs' origional_path = some content := by
  have hex0 : fsExists fs origional_path = true :=
    fsExists_of_get fs _ content h
  set base := (splitext origional_path).1 with hbase
  set ext := (splitext origional_path).2 with hext
  obtain ⟨j, hj1, hj2, hjfree⟩ := exists_free_candidate fs origional_path base ext
  obtain ⟨hfree, -, hmin⟩ := backupLoop_spec fs
    (backupCandidate origional_path base ext) (fs.length + 2) 0
    ⟨j, by omega, by omega, hjfree⟩
  set n := backupLoop fs (backupCandidate origional_path base ext)
    (fs.length + 2) 0 with hn
  have hnpos : 0 < n := by
    rcases Nat.eq_zero_or_pos n with h0 | hp
    · exfalso
      rw [h0] at hfree
      rw [show backupCandidate origional_path base ext 0 = origional_path from by
        simp [backupCandidate]] at hfree
      rw [hex0] at hfree
      cases hfree
    · exact hp
  have hneq : backupCandidate origional_path base ext n ≠ origional_path := by
    intro he
    rw [he, hex0] at hfree
    cases hfree
  refine ⟨n, fsSet fs (backupCandidate origional_path base ext n) content,
    ?_, hnpos, hfree, (fun m hm1 hm2 => hmin m (by omega) hm2), ?_, ?_⟩
  · unfold backup_existing_file
    dsimp only
    rw [h, ← hbase, ← hext, ← hn]
  · exact fsGet?_fsSet_self fs _ content
  · rw [fsGet?_fsSet_other fs _ origional_path content (Ne.symm hneq)]
    exact h

theorem backup_copies_to_first_free_witness :
    fsGet? demoFS "d/f.csv" = some 7
    ∧ (∃ n fs',
        backup_existing_file demoFS "d/f.csv"
          = .ok (backupCandidate "d/f.csv" (splitext "d/f.csv").1
              (splitext "d/f.csv").2 n, fs')
        ∧ 0 < n
        ∧ fsExists demoFS (backupCandidate "d/f.csv" (splitext "d/f.csv").1
            (splitext "d/f.csv").2 n) = false
        ∧ (∀ m, 0 < m → m < n →
            fsExists demoFS (backupCandidate "d/f.csv" (splitext "d/f.csv").1
              (splitext "d/f.csv").2 m) = true)
        ∧ fsGet? fs' (backupCandidate "d/f.csv" (splitext "d/f.csv").1
            (splitext "d/f.csv").2 n) = some 7
        ∧ fsGet? fs' "d/f.csv" = some 7)
    ∧ (backup_existing_file demoFS "d/f.csv").toOption.map Prod.fst
        = some "d/f.backup-3.csv" :=
  ⟨rfl, backup_copies_to_first_free demoFS "d/f.csv" 7 rfl, by decide⟩

theorem any_key_map {α : Type} (f : (List String × α) → (List String × α))
    (hf : ∀ p, (f p).1 = p.1) (l : List (List String × α)) (q : List String) :
    (l.map f).any (fun e => e.1 == q) = l.any (fun e => e.1 == q) := by
  induction l with
  | nil => rfl
  | cons p rest ih => simp [List.any_cons, hf, ih]

theorem dictInsert_any {κ α : Type} [BEq κ] [LawfulBEq κ]
    (m : List (κ × α)) (k0 k : κ) (v : α) :
    ((dictInsert m k0 v).any (fun e => e.1 == k))
      = (m.any (fun e => e.1 == k) || (k0 == k)) := by
  unfold dictInsert
  by_cases hany : m.any (fun e => e.1 == k0) = true
  · rw [if_pos hany]
    have hmap : ∀ l : List (κ × α),
        (l.map (fun p => if p.1 == k0 then (p.1, v) else p)).any
            (fun e => e.1 == k)
          = l.any (fun e => e.1 == k) := by
      intro l
      induction l with
      | nil => rfl
      | cons p rest ih =>
        by_cases hp : (p.1 == k0) = true <;> simp [List.any_cons, hp, ih]
    rw [hmap]
    by_cases hk : (k0 == k) = true
    · have : k0 = k := eq_of_beq hk
      subst this
      rw [hany]
      simp [hk]
    · simp [hk]
  · rw [if_neg hany]
    simp [List.any_append, List.any_cons]

theorem buildDict_any (ks : List (List String)) :
    ∀ (m : Tbl) (k : List String),
      ((ks.foldl (fun m k0 => dictInsert m k0 ([] : List (Option ℚ))) m).any
          (fun e => e.1 == k))
        = (m.any (fun e => e.1 == k) || ks.any (fun k0 => k0 == k)) := by
  induction ks with
  | nil => intro m k; simp
  | cons k0 rest ih =>
    intro m k
    rw [List.foldl_cons, ih, dictInsert_any, List.any_cons, Bool.or_assoc]

theorem setLast_none_iff (tbl : Tbl) (k : List String) (v : ℚ) :
    setLast tbl k v = none ↔ tbl.any (fun e => e.1 == k) = false := by
  unfold setLast
  by_cases h : tbl.any (fun e => e.1 == k) = true
  · rw [if_pos h]
    simp [h]
  · rw [if_neg h]
    exact ⟨fun _ => Bool.not_eq_true _ |>.mp h, fun _ => rfl⟩

theorem processAnnot_absent (cfg : DlcConfig) (is_ma : Bool)
    (st : Tbl × ℕ × List String) (annot : IRec)
    (h : st.1.any (fun e => e.1 == computeKey is_ma cfg annot ++ ["x"]) = false) :
    processAnnot cfg is_ma st annot
      = (st.1, st.2.1 + 1, st.2.2 ++ [rationaleFor cfg annot]) := by
  unfold processAnnot
  dsimp only
  rw [show setLast st.1 (computeKey is_ma cfg annot ++ ["x"]) annot.x = none from
    (setLast_none_iff _ _ _).mpr h]

theorem groupFold_absent (cfg : DlcConfig) (is_ma : Bool) :
    ∀ (grp : List IRec) (tbl : Tbl) (errs : ℕ) (logs : List String),
      (∀ r ∈ grp,
          tbl.any (fun e => e.1 == computeKey is_ma cfg r ++ ["x"]) = false) →
      grp.foldl (processAnnot cfg is_ma) (tbl, errs, logs)
        = (tbl, errs + grp.length, logs ++ grp.map (rationaleFor cfg)) := by
  intro grp
  induction grp with
  | nil => intro tbl errs logs _; simp
  | cons r rest ih =>
    intro tbl errs logs h
    rw [List.foldl_cons,
      processAnnot_absent cfg is_ma (tbl, errs, logs) r (h r (List.mem_cons_self r rest)),
      ih tbl (errs + 1) (logs ++ [rationaleFor cfg r])
        (fun r' hr' => h r' (List.mem_cons_of_mem r hr'))]
    simp only [List.map_cons, List.length_cons, Prod.mk.injEq, List.append_assoc,
      List.singleton_append, and_true, true_and]
    omega

theorem chunkByF_flatten {α : Type} (p : α → α → Bool) :
    ∀ (f : ℕ) (l : List α), (chunkByF p f l).flatten = l := by
  intro f
  induction f with
  | zero =>
    intro l
    cases l with
    | nil => rfl
    | cons a as => simp [chunkByF]
  | succ f ih =>
    intro l
    cases l with
    | nil => rfl
    | cons a as =>
      show ((a :: as.takeWhile (p a)) :: chunkByF p f (as.dropWhile (p a))).flatten
        = a :: as
      rw [List.flatten_cons, ih]
      simp [List.takeWhile_append_dropWhile]

theorem chunkBy_flatten {α : Type} (p : α → α → Bool) (l : List α) :
    (chunkBy p l).flatten = l :=
  chunkByF_flatten p l.length l

theorem processGroup_absent_eq (cfg : DlcConfig) (is_ma : Bool)
    (rows : List (List String)) (tbl : Tbl) (errs : ℕ) (logs : List String)
    (g : List IRec)
    (habs : ∀ r ∈ g,
        ((tbl.map (fun e => (e.1, e.2 ++ [(none : Option ℚ)]))).any
          (fun e => e.1 == computeKey is_ma cfg r ++ ["x"])) = false) :
    processGroup cfg is_ma (rows, tbl, errs, logs) g
      = (rows ++ [rowKeyOf (((g.head?.map (fun a => a.file_name)).getD none).getD "")],
         tbl.map (fun e => (e.1, e.2 ++ [(none : Option ℚ)])),
         errs + g.length, logs ++ g.map (rationaleFor cfg)) := by
  unfold processGroup
  dsimp only
  rw [groupFold_absent cfg is_ma g _ errs logs habs]

theorem groupsFold_aux (cfg : DlcConfig) (is_ma : Bool)
    (cols : List (List String)) :
    ∀ (groups : List (List IRec)) (rows : List (List String)) (tbl : Tbl)
      (errs : ℕ) (logs : List String),
      (∀ q : List String,
          tbl.any (fun e => e.1 == q) = cols.any (fun k0 => k0 == q)) →
      (∀ g ∈ groups, ∀ r ∈ g,
          cols.any (fun k0 => k0 == computeKey is_ma cfg r ++ ["x"]) = false) →
      ((groups.foldl (processGroup cfg is_ma) (rows, tbl, errs, logs)).2.2.1
          = errs + (groups.map List.length).sum)
      ∧ ((groups.foldl (processGroup cfg is_ma) (rows, tbl, errs, logs)).2.2.2
          = logs ++ groups.flatten.map (rationaleFor cfg)) := by
  intro groups
  induction groups with
  | nil => intro rows tbl errs logs _ _; simp
  | cons g gs ih =>
    intro rows tbl errs logs hinv hg
    have hinv' : ∀ q : List String,
        ((tbl.map (fun e => (e.1, e.2 ++ [(none : Option ℚ)]))).any
          (fun e => e.1 == q)) = cols.any (fun k0 => k0 == q) := by
      intro q
      rw [any_key_map (fun e => (e.1, e.2 ++ [(none : Option ℚ)])) (fun p => rfl),
        hinv]
    have habs : ∀ r ∈ g,
        ((tbl.map (fun e => (e.1, e.2 ++ [(none : Option ℚ)]))).any
          (fun e => e.1 == computeKey is_ma cfg r ++ ["x"])) = false := by
      intro r hr
      rw [hinv']
      exact hg g (List.mem_cons_self g gs) r hr
    rw [List.foldl_cons, processGroup_absent_eq cfg is_ma rows tbl errs logs g habs]
    obtain ⟨h1, h2⟩ := ih _ _ (errs + g.length) (logs ++ g.map (rationaleFor cfg))
      hinv' (fun g' hg' r hr => hg g' (List.mem_cons_of_mem g hg') r hr)
    refine ⟨?_, ?_⟩
    · rw [h1]
      simp only [List.map_cons, List.sum_cons]
      omega
    · rw [h2]
      simp [List.flatten_cons]

theorem intermediate_errors_all_absent (annots : List IRec) (cfg : DlcConfig)
    (h : ∀ r ∈ annots,
        ((make_index_from_dlc_config cfg).any
          (fun k0 => k0 == computeKey (is_multianimal cfg) cfg r ++ ["x"])) = false) :
    (intermediate_annotations_to_dlc annots cfg).errors = annots.length
    ∧ (intermediate_annotations_to_dlc annots cfg).rationales
        = ((chunkBy (fun a b => a.file_name == b.file_name)
            (List.insertionSort (fun a b => recLe a b = true) annots)).flatten).map
              (rationaleFor cfg)
    ∧ (intermediate_annotations_to_dlc annots cfg).rationales.length
        = annots.length := by
  have hperm : List.Perm
      (List.insertionSort (fun a b => recLe a b = true) annots) annots :=
    List.perm_insertionSort _ annots
  have hflat : (chunkBy (fun a b => a.file_name == b.file_name)
      (List.insertionSort (fun a b => recLe a b = true) annots)).flatten
      = List.insertionSort (fun a b => recLe a b = true) annots :=
    chunkBy_flatten _ _
  have hinv : ∀ q : List String,
      (((make_index_from_dlc_config cfg).foldl
          (fun m k0 => dictInsert m k0 ([] : List (Option ℚ))) []).any
        (fun e => e.1 == q))
        = (make_index_from_dlc_config cfg).any (fun k0 => k0 == q) := by
    intro q
    rw [buildDict_any]
    simp
  have hg : ∀ g ∈ chunkBy (fun a b => a.file_name == b.file_name)
      (List.insertionSort (fun a b => recLe a b = true) annots), ∀ r ∈ g,
      ((make_index_from_dlc_config cfg).any
        (fun k0 => k0 == computeKey (is_multianimal cfg) cfg r ++ ["x"])) = false := by
    intro g hgmem r hr
    have hrs : r ∈ List.insertionSort (fun a b => recLe a b = true) annots := by
      rw [← hflat]
      exact List.mem_flatten.mpr ⟨g, hgmem, hr⟩
    exact h r (hperm.mem_iff.mp hrs)
  obtain ⟨h1, h2⟩ := groupsFold_aux cfg (is_multianimal cfg)
    (make_index_from_dlc_config cfg)
    (chunkBy (fun a b => a.file_name == b.file_name)
      (List.insertionSort (fun a b => recLe a b = true) annots))
    [] ((make_index_from_dlc_config cfg).foldl
      (fun m k0 => dictInsert m k0 ([] : List (Option ℚ))) []) 0 [] hinv hg
  have herr : (intermediate_annotations_to_dlc annots cfg).errors
      = ((chunkBy (fun a b => a.file_name == b.file_name)
          (List.insertionSort (fun a b => recLe a b = true) annots)).map
            List.length).sum := by
    unfold intermediate_annotations_to_dlc
    dsimp only
    rw [h1]
    omega
  have hrat : (intermediate_annotations_to_dlc annots cfg).rationales
      = ((chunkBy (fun a b => a.file_name == b.file_name)
          (List.insertionSort (fun a b => recLe a b = true) annots)).flatten).map
            (rationaleFor cfg) := by
    unfold intermediate_annotations_to_dlc
    dsimp only
    rw [h2]
    simp
  have hsum : ((chunkBy (fun a b => a.file_name == b.file_name)
      (List.insertionSort (fun a b => recLe a b = true) annots)).map
        List.length).sum = annots.length := by
    rw [← List.length_flatten, hflat]
    exact hperm.length_eq
  refine ⟨by rw [herr, hsum], hrat, ?_⟩
  rw [hrat]
  simp only [List.length_map]
  rw [hflat]
  exact hperm.length_eq

theorem dictGet?_some_any {κ α : Type} [BEq κ] (m : List (κ × α)) (k : κ)
    (l : α) (h : dictGet? m k = some l) :
    m.any (fun e => e.1 == k) = true := by
  unfold dictGet? at h
  cases hf : m.find? (fun e => e.1 == k) with
  | none => rw [hf] at h; cases h
  | some e =>
    have hm := List.mem_of_find?_eq_some hf
    have hp := List.find?_some hf
    rw [List.any_eq_true]
    exact ⟨e, hm, hp⟩

theorem dictGet?_none_any {κ α : Type} [BEq κ] (m : List (κ × α)) (k : κ)
    (h : dictGet? m k = none) :
    m.any (fun e => e.1 == k) = false := by
  unfold dictGet? at h
  cases hf : m.find? (fun e => e.1 == k) with
  | some e => rw [hf] at h; cases h
  | none =>
    rw [List.any_eq_false]
    intro e he
    exact List.find?_eq_none.mp hf e he

theorem dictGet?_some_val {κ α : Type} [BEq κ] (m : List (κ × α)) (k : κ)
    (l : α) (h : dictGet? m k = some l) :
    ∃ g ∈ m, g.2 = l := by
  unfold dictGet? at h
  cases hf : m.find? (fun e => e.1 == k) with
  | none => rw [hf] at h; cases h
  | some e =>
    rw [hf] at h
    exact ⟨e, List.mem_of_find?_eq_some hf, by simpa using h⟩

theorem dictInsert_nodupKeys {κ α : Type} [BEq κ] [LawfulBEq κ]
    (m : List (κ × α)) (k : κ) (v : α) (h : (m.map Prod.fst).Nodup) :
    ((dictInsert m k v).map Prod.fst).Nodup := by
  unfold dictInsert
  by_cases hany : m.any (fun e => e.1 == k) = true
  · rw [if_pos hany]
    have hsame : (m.map (fun p => if p.1 == k then (p.1, v) else p)).map Prod.fst
        = m.map Prod.fst := by
      rw [List.map_map]
      apply List.map_congr_left
      intro p _
      by_cases hp : (p.1 == k) = true <;> simp [hp]
    rw [hsame]
    exact h
  · rw [if_neg hany, List.map_append]
    rw [List.nodup_append]
    refine ⟨h, by simp, ?_⟩
    intro a ha hb
    have hak : a = k := by simpa using hb
    obtain ⟨p, hp, rfl⟩ := List.mem_map.mp ha
    have hfalse := Bool.not_eq_true _ |>.mp hany
    rw [List.any_eq_false] at hfalse
    have hcontra := hfalse p hp
    simp [hak] at hcontra

theorem dictInsert_mem_values {κ α : Type} [BEq κ] (m : List (κ × α)) (k : κ)
    (v : α) : ∀ g ∈ dictInsert m k v, g.2 = v ∨ g ∈ m := by
  unfold dictInsert
  by_cases hany : m.any (fun e => e.1 == k) = true
  · rw [if_pos hany]
    intro g hg
    obtain ⟨p, hp, rfl⟩ := List.mem_map.mp hg
    by_cases hpk : (p.1 == k) = true
    · rw [if_pos hpk]
      exact Or.inl rfl
    · rw [if_neg hpk]
      exact Or.inr hp
  · rw [if_neg hany]
    intro g hg
    rcases List.mem_append.mp hg with hg | hg
    · exact Or.inr hg
    · have : g = (k, v) := by simpa using hg
      rw [this]
      exact Or.inl rfl

theorem dictInsert_sum_existing (m : List (String × List IRec)) (k : String)
    (l : List IRec) (a : IRec) (hnod : (m.map Prod.fst).Nodup)
    (hget : dictGet? m k = some l) :
    ((dictInsert m k (l ++ [a])).map (fun g => g.2.length)).sum
      = (m.map (fun g => g.2.length)).sum + 1 := by
  induction m with
  | nil => simp [dictGet?] at hget
  | cons e rest ih =>
    rw [List.map_cons] at hnod
    have hnodr : (rest.map Prod.fst).Nodup := (List.nodup_cons.mp hnod).2
    have hhead : e.1 ∉ rest.map Prod.fst := (List.nodup_cons.mp hnod).1
    by_cases he : (e.1 == k) = true
    · have hek : e.1 = k := eq_of_beq he
      have hl : e.2 = l := by
        unfold dictGet? at hget
        rw [List.find?_cons_of_pos _ (by simpa using he)] at hget
        simpa using hget
      have hany : (e :: rest).any (fun p => p.1 == k) = true := by
        simp [List.any_cons, he]
      unfold dictInsert
      rw [if_pos hany, List.map_cons, if_pos he]
      have hrest : rest.map
          (fun p => if p.1 == k then (p.1, l ++ [a]) else p) = rest := by
        have hpt : ∀ p ∈ rest,
            (if p.1 == k then (p.1, l ++ [a]) else p) = p := by
          intro p hp
          have hpk : ¬ (p.1 == k) = true := by
            intro hpk
            exact hhead (by
              rw [hek, ← eq_of_beq hpk]
              exact List.mem_map.mpr ⟨p, hp, rfl⟩)
          rw [if_neg hpk]
        calc rest.map (fun p => if p.1 == k then (p.1, l ++ [a]) else p)
            = rest.map id := List.map_congr_left hpt
          _ = rest := List.map_id rest
      rw [hrest]
      simp [← hl, List.length_append]
      omega
    · have hget' : dictGet? rest k = some l := by
        unfold dictGet? at hget ⊢
        rw [List.find?_cons_of_neg _ (by simpa using he)] at hget
        exact hget
      have hanyr : rest.any (fun p => p.1 == k) = true :=
        dictGet?_some_any rest k l hget'
      have hany : (e :: rest).any (fun p => p.1 == k) = true := by
        simp [List.any_cons, hanyr]
      unfold dictInsert
      rw [if_pos hany, List.map_cons, if_neg he]
      have hd : dictInsert rest k (l ++ [a])
          = rest.map (fun p => if p.1 == k then (p.1, l ++ [a]) else p) := by
        unfold dictInsert
        rw [if_pos hanyr]
      have ih' := ih hnodr hget'
      rw [hd] at ih'
      simp only [List.map_cons, List.sum_cons]
      rw [ih']
      omega

theorem split_fold_props :
    ∀ (l : List IRec) (acc : List (String × List IRec)),
      (acc.map Prod.fst).Nodup →
      (((l.foldl (fun grouped annot =>
          match dictGet? grouped ((osSplit ((osSplit (annot.file_name.getD "")).1)).2) with
          | some lg => dictInsert grouped ((osSplit ((osSplit (annot.file_name.getD "")).1)).2) (lg ++ [annot])
          | none => dictInsert grouped ((osSplit ((osSplit (annot.file_name.getD "")).1)).2) [annot]) acc).map Prod.fst).Nodup)
      ∧ (((l.foldl (fun grouped annot =>
          match dictGet? grouped ((osSplit ((osSplit (annot.file_name.getD "")).1)).2) with
          | some lg => dictInsert grouped ((osSplit ((osSplit (annot.file_name.getD "")).1)).2) (lg ++ [annot])
          | none => dictInsert grouped ((osSplit ((osSplit (annot.file_name.getD "")).1)).2) [annot]) acc).map
            (fun g => g.2.length)).sum
          = (acc.map (fun g => g.2.length)).sum + l.length)
      ∧ (∀ g ∈ l.foldl (fun grouped annot =>
          match dictGet? grouped ((osSplit ((osSplit (annot.file_name.getD "")).1)).2) with
          | some lg => dictInsert grouped ((osSplit ((osSplit (annot.file_name.getD "")).1)).2) (lg ++ [annot])
          | none => dictInsert grouped ((osSplit ((osSplit (annot.file_name.getD "")).1)).2) [annot]) acc,
          ∀ r ∈ g.2, (∃ g0 ∈ acc, r ∈ g0.2) ∨ r ∈ l) := by
  intro l
  induction l with
  | nil =>
    intro acc hnod
    exact ⟨hnod, by simp, fun g hg r hr => Or.inl ⟨g, hg, hr⟩⟩
  | cons a rest ih =>
    intro acc hnod
    rw [List.foldl_cons]
    cases hget : dictGet? acc ((osSplit ((osSplit (a.file_name.getD "")).1)).2) with
    | some lg =>
      dsimp only
      obtain ⟨n2, s2, m2⟩ :=
        ih (dictInsert acc ((osSplit ((osSplit (a.file_name.getD "")).1)).2)
          (lg ++ [a])) (dictInsert_nodupKeys _ _ _ hnod)
      refine ⟨n2, ?_, ?_⟩
      · rw [s2, dictInsert_sum_existing acc _ lg a hnod hget]
        simp only [List.length_cons]
        omega
      · intro g hg r hr
        rcases m2 g hg r hr with ⟨g0, hg0, hr0⟩ | hrest
        · rcases dictInsert_mem_values acc _ (lg ++ [a]) g0 hg0 with hval | hacc
          · rw [hval] at hr0
            rcases List.mem_append.mp hr0 with hrl | hra
            · obtain ⟨ge, hge, hge2⟩ := dictGet?_some_val acc _ lg hget
              exact Or.inl ⟨ge, hge, by rw [hge2]; exact hrl⟩
            · have hra' : r = a := by simpa using hra
              exact Or.inr (by rw [hra']; exact List.mem_cons_self a rest)
          · exact Or.inl ⟨g0, hacc, hr0⟩
        · exact Or.inr (List.mem_cons_of_mem a hrest)
    | none =>
      dsimp only
      obtain ⟨n2, s2, m2⟩ :=
        ih (dictInsert acc ((osSplit ((osSplit (a.file_name.getD "")).1)).2) [a])
          (dictInsert_nodupKeys _ _ _ hnod)
      have hsum1 : ((dictInsert acc
          ((osSplit ((osSplit (a.file_name.getD "")).1)).2) [a]).map
            (fun g => g.2.length)).sum
          = (acc.map (fun g => g.2.length)).sum + 1 := by
        unfold dictInsert
        rw [if_neg (by simp [dictGet?_none_any acc _ hget])]
        simp
      refine ⟨n2, ?_, ?_⟩
      · rw [s2, hsum1]
        simp only [List.length_cons]
        omega
      · intro g hg r hr
        rcases m2 g hg r hr with ⟨g0, hg0, hr0⟩ | hrest
        · rcases dictInsert_mem_values acc _ [a] g0 hg0 with hval | hacc
          · rw [hval] at hr0
            have hra' : r = a := by simpa using hr0
            exact Or.inr (by rw [hra']; exact List.mem_cons_self a rest)
          · exact Or.inl ⟨g0, hacc, hr0⟩
        · exact Or.inr (List.mem_cons_of_mem a hrest)

theorem split_annotations_props (annots : List IRec) :
    (((split_annotations_by_directory annots).map (fun g => g.2.length)).sum
        = annots.length)
    ∧ ∀ g ∈ split_annotations_by_directory annots, ∀ r ∈ g.2, r ∈ annots := by
  obtain ⟨-, hsum, hmem⟩ := split_fold_props annots [] (by simp)
  constructor
  · unfold split_annotations_by_directory
    simpa using hsum
  · intro g hg r hr
    rcases hmem g hg r hr with ⟨g0, hg0, _⟩ | h
    · exact absurd hg0 (List.not_mem_nil g0)
    · exact h

theorem rationaleFor_cases (cfg : DlcConfig) (r : IRec) :
    rationaleFor cfg r
        = "bodypart is a multianimal bodypart, but no relationship to an individual was found!"
    ∨ rationaleFor cfg r
        = "bodypart is a unique bodypart and should not have a relationship with an individual, but one was found"
    ∨ rationaleFor cfg r = "Unknown" := by
  unfold rationaleFor
  split_ifs <;> simp

/-- C4: for every list of records whose computed x-column key is absent
from the schema-defined column set, the assembler counts exactly one
schema violation per record — so it keeps processing after each violation
rather than aborting — logs one rationale per record, each drawn from the
three group-membership classes, and, whenever the record list is nonempty
(so the total error count is positive), the conversion call returns no
table and leaves the file system untouched, on both the split and
non-split paths. -/
theorem violation_counting (annots : List IRec) (cfg : DlcConfig)
    (habsent : ∀ r ∈ annots,
        (computeKey (is_multianimal cfg) cfg r ++ ["x"])
          ∉ make_index_from_dlc_config cfg) :
    (intermediate_annotations_to_dlc annots cfg).errors = annots.length
    ∧ (intermediate_annotations_to_dlc annots cfg).rationales.length
        = annots.length
    ∧ (∀ m ∈ (intermediate_annotations_to_dlc annots cfg).rationales,
        m = "bodypart is a multianimal bodypart, but no relationship to an individual was found!"
        ∨ m = "bodypart is a unique bodypart and should not have a relationship with an individual, but one was found"
        ∨ m = "Unknown")
    ∧ (∀ (split save : Bool) (fs : FS SavedDoc), 0 < annots.length →
        convert_ls_annot_to_dlc annots cfg split save fs = .ok (none, fs)) := by
  have hany : ∀ r ∈ annots,
      ((make_index_from_dlc_config cfg).any
        (fun k0 => k0 == computeKey (is_multianimal cfg) cfg r ++ ["x"])) = false := by
    intro r hr
    rw [List.any_eq_false]
    intro k0 hk0 hbeq
    exact habsent r hr (eq_of_beq hbeq ▸ hk0)
  obtain ⟨herr, hratlist, hratlen⟩ := intermediate_errors_all_absent annots cfg hany
  refine ⟨herr, hratlen, ?_, ?_⟩
  · intro m hm
    rw [hratlist] at hm
    obtain ⟨r, _, rfl⟩ := List.mem_map.mp hm
    exact rationaleFor_cases cfg r
  · intro split save fs hpos
    cases split with
    | false =>
      unfold convert_ls_annot_to_dlc
      simp only [Bool.false_eq_true, if_false]
      rw [if_pos (by rw [herr]; omega)]
    | true =>
      unfold convert_ls_annot_to_dlc
      simp only [if_true]
      obtain ⟨hsum, hmem⟩ := split_annotations_props annots
      have htot : (((split_annotations_by_directory annots).map
            (fun g => (g.1, intermediate_annotations_to_dlc g.2 cfg))).map
              (fun r => r.2.errors)).sum = annots.length := by
        rw [List.map_map]
        have hcg : ∀ g ∈ split_annotations_by_directory annots,
            ((fun r => r.2.errors)
              ∘ (fun g => (g.1, intermediate_annotations_to_dlc g.2 cfg))) g
            = (fun g => g.2.length) g := by
          intro g hg
          show (intermediate_annotations_to_dlc g.2 cfg).errors = g.2.length
          exact (intermediate_errors_all_absent g.2 cfg
            (fun r hr => hany r (hmem g hg r hr))).1
        rw [List.map_congr_left hcg]
        exact hsum
      rw [if_pos (by rw [htot]; omega)]

theorem violation_counting_witness :
    (∀ r ∈ [orphanRec],
        (computeKey (is_multianimal maCfg) maCfg r ++ ["x"])
          ∉ make_index_from_dlc_config maCfg)
    ∧ ((intermediate_annotations_to_dlc [orphanRec] maCfg).errors
          = ([orphanRec] : List IRec).length
       ∧ (intermediate_annotations_to_dlc [orphanRec] maCfg).rationales.length
          = ([orphanRec] : List IRec).length
       ∧ (∀ m ∈ (intermediate_annotations_to_dlc [orphanRec] maCfg).rationales,
          m = "bodypart is a multianimal bodypart, but no relationship to an individual was found!"
          ∨ m = "bodypart is a unique bodypart and should not have a relationship with an individual, but one was found"
          ∨ m = "Unknown")
       ∧ (∀ (split save : Bool) (fs : FS SavedDoc),
            0 < ([orphanRec] : List IRec).length →
            convert_ls_annot_to_dlc [orphanRec] maCfg split save fs
              = .ok (none, fs))) :=
  ⟨by decide, violation_counting [orphanRec] maCfg (by decide)⟩
